import Mathlib

/-!
# Verification of the nanopore run format checker

A shallow embedding of `nanopore_format_checker.py` (the run-format
classification engine: bounded directory walker, counting/size-estimation
engine, format classifier and diagnostic reporter), together with theorems
settling the specification claims about it.

The filesystem is modelled as a tree of entries.  A directory carries a
`readable` flag: an unreadable directory is one whose `os.scandir` raises
`PermissionError`.  File `stat` calls are modelled as always succeeding
(claims about stat-failure races are out of scope); symbolic links are
absent from the model since every walker in the source passes
`follow_symlinks=False`, which makes symlinks invisible to both the
`is_file` and `is_dir` checks.  Python strings become `String`, byte
counts become `Nat`.  The floating-point arithmetic of
`estimate_dir_size` (one int/int true division, one int-to-float
conversion and one multiplication, all in IEEE-754 binary64) is modelled
over `ℚ` by `roundFloat`: correct rounding to 53 significant bits,
round-to-nearest ties-to-even, with the subnormal quantum below
`2^(-1022)`; Python's `int()` truncation toward zero is `pyTrunc`.
Values so large that binary64 overflows to infinity (at `2^1024`, where
`int()` would raise `OverflowError`) are beyond the modelled exponent
range; every theorem below stays far under that threshold, where the
model and binary64 agree exactly.
Chemistry extraction (`extract_chemistry` and friends) is an external
collaborator per the design: it never influences `formats` or `details`
and is omitted from the embedding.
-/

namespace Nanopore

/-- A filesystem entry: a plain file with a byte size, or a directory with
a readability flag and an ordered list of children (scandir order). -/
inductive Entry where
  | file (name : String) (size : Nat)
  | dir (name : String) (readable : Bool) (children : List Entry)
deriving Repr

/-- Name of an entry. -/
def Entry.name : Entry → String
  | .file n _ => n
  | .dir n _ _ => n

/-- `entry.is_dir(follow_symlinks=False)`. -/
def Entry.isDir : Entry → Bool
  | .file _ _ => false
  | .dir _ _ _ => true

/-- `entry.is_file(follow_symlinks=False)`. -/
def Entry.isFile : Entry → Bool
  | .file _ _ => true
  | .dir _ _ _ => false

/-- Whether `os.scandir` on this entry succeeds (directories only;
the walkers only ever scan entries that passed an `is_dir` check). -/
def Entry.readable : Entry → Bool
  | .file _ _ => false
  | .dir _ r _ => r

/-- Children of a directory entry. -/
def Entry.children : Entry → List Entry
  | .file _ _ => []
  | .dir _ _ cs => cs

/-- `_is_dir_readable` (source lines 213-220): scandir the directory and
report whether it raised `PermissionError`. -/
def is_dir_readable (e : Entry) : Bool := e.readable

/-- `str.startswith(pre)`, over the character sequence. -/
def strStartsWith (s pre : String) : Bool := pre.data.isPrefixOf s.data

/-- `str.endswith(suf)`, over the character sequence. -/
def strEndsWith (s suf : String) : Bool := suf.data.isSuffixOf s.data

/-- A path, as the list of entry names from the run root (exclusive) down
to the entry. -/
abbrev FPath := List String

/-- Render a path the way `str(path)` renders it (run root elided). -/
def pathStr (p : FPath) : String :=
  match p with
  | [] => ""
  | x :: rest => rest.foldl (fun acc n => acc ++ "/" ++ n) x

/-- The five structural categories of `discover_run_structure`. -/
inductive DirCategory where
  | pod5Exact
  | pod5Pref
  | fast5Exact
  | fast5Pref
  | fastqPref
deriving Repr, DecidableEq

/-- The name-matching chain shared by `discover_run_structure`
(source lines 185-202): exact `"pod5"`, then the `"pod5_"`, exact
`"fast5"`, `"fast5_"` and `"fastq"` name patterns, first match wins. -/
def matchCategory (n : String) : Option DirCategory :=
  if n = "pod5" then some .pod5Exact
  else if strStartsWith n "pod5_" then some .pod5Pref
  else if n = "fast5" then some .fast5Exact
  else if strStartsWith n "fast5_" then some .fast5Pref
  else if strStartsWith n "fastq" then some .fastqPref
  else none

/-- Result of `discover_run_structure`: the five ordered category lists,
each element carrying the discovered directory's path and the directory
entry itself. -/
structure RunStructure where
  pod5 : List (FPath × Entry) := []
  pod5_prefixed : List (FPath × Entry) := []
  fast5 : List (FPath × Entry) := []
  fast5_prefixed : List (FPath × Entry) := []
  fastq_prefixed : List (FPath × Entry) := []
deriving Repr

/-- Append a discovered directory to its category list. -/
def RunStructure.add (s : RunStructure) (c : DirCategory) (x : FPath × Entry) :
    RunStructure :=
  match c with
  | .pod5Exact => { s with pod5 := s.pod5 ++ [x] }
  | .pod5Pref => { s with pod5_prefixed := s.pod5_prefixed ++ [x] }
  | .fast5Exact => { s with fast5 := s.fast5 ++ [x] }
  | .fast5Pref => { s with fast5_prefixed := s.fast5_prefixed ++ [x] }
  | .fastqPref => { s with fastq_prefixed := s.fastq_prefixed ++ [x] }

/-- One level of the `_walk` loop of `discover_run_structure`: classify
each immediate subdirectory entry by name; a matched directory is recorded
and not recursed into, an unmatched one is handed to `recurseInto`
(scanning it silently yields nothing when it is unreadable). -/
def discoverScan (recurseInto : FPath → List Entry → RunStructure → RunStructure)
    (pre : FPath) : List Entry → RunStructure → RunStructure
  | [], acc => acc
  | .file _ _ :: rest, acc => discoverScan recurseInto pre rest acc
  | .dir n r cs :: rest, acc =>
      let p := pre ++ [n]
      let acc' :=
        match matchCategory n with
        | some c => acc.add c (p, Entry.dir n r cs)
        | none => if r then recurseInto p cs acc else acc
      discoverScan recurseInto pre rest acc'

/-- The depth-limited `_walk` of `discover_run_structure`: `fuel` is the
number of directory levels still allowed to be scanned (`max_depth -
depth + 1` in the source's terms). -/
def discoverLevels : Nat → FPath → List Entry → RunStructure → RunStructure
  | 0, _, _, acc => acc
  | fuel + 1, pre, children, acc => discoverScan (discoverLevels fuel) pre children acc

/-- `discover_run_structure` (source lines 158-210): one bounded walk of
the run directory (given by its readability flag and immediate children),
categorizing all format-related subdirectories, `max_depth = 5`. -/
def discover_run_structure (rootReadable : Bool) (children : List Entry)
    (maxDepth : Nat := 5) : RunStructure :=
  if rootReadable then discoverLevels maxDepth [] children {} else {}

/-- The per-entry loop of `fast_count_files` (source lines 237-279) over a
list of scandir entries: a file is matched when its name ends with any of
the given suffixes; with `recursive` set, subdirectories are descended
into (an unreadable one contributes nothing).  Returns
`(file_count, total_size_bytes)`. -/
def fcfChildren (exts : List String) (recursive : Bool) : List Entry → Nat × Nat
  | [] => (0, 0)
  | .file n sz :: rest =>
      let acc := fcfChildren exts recursive rest
      if exts.any (fun e => strEndsWith n e) then (acc.1 + 1, acc.2 + sz) else acc
  | .dir _ r cs :: rest =>
      let sub := if recursive && r then fcfChildren exts recursive cs else (0, 0)
      let acc := fcfChildren exts recursive rest
      (sub.1 + acc.1, sub.2 + acc.2)

/-- `fast_count_files` on a directory given by readability flag and
children; scanning an unreadable directory raises `PermissionError`,
caught to yield `(0, 0)`. -/
def fast_count_files (readable : Bool) (children : List Entry)
    (exts : List String) (recursive : Bool) : Nat × Nat :=
  if readable then fcfChildren exts recursive children else (0, 0)

/-- `count_files_recursive` (source lines 560-565). -/
def count_files_recursive (readable : Bool) (children : List Entry) (ext : String) :
    Nat × Nat :=
  fast_count_files readable children [ext] true

/-- The `_scan` closure of `estimate_dir_size` (source lines 301-316),
threading the mutable state `(count, sampled_sizes)`: every matching file
is counted, but only the first `sample_size` matched files are stat'ed
(their sizes appended to the sample). -/
def estScan (ext : String) (sampleSize : Nat) (recursive : Bool) :
    List Entry → Nat × List Nat → Nat × List Nat
  | [], st => st
  | .file n sz :: rest, (c, samp) =>
      if strEndsWith n ext then
        estScan ext sampleSize recursive rest
          (c + 1, if samp.length < sampleSize then samp ++ [sz] else samp)
      else estScan ext sampleSize recursive rest (c, samp)
  | .dir _ r cs :: rest, st =>
      let st' := if recursive && r then estScan ext sampleSize recursive cs st else st
      estScan ext sampleSize recursive rest st'

/-- `2 ^ k` over `ℚ` for an integer exponent `k`. -/
def qPow2 (k : Int) : ℚ :=
  if 0 ≤ k then ((2 ^ k.toNat : ℕ) : ℚ) else 1 / ((2 ^ (-k).toNat : ℕ) : ℚ)

/-- `⌊log₂ n⌋` for `n ≥ 1`, by structural recursion on a fuel bound. -/
def natLog2Aux : Nat → Nat → Nat
  | 0, _ => 0
  | fuel + 1, n => if n ≤ 1 then 0 else natLog2Aux fuel (n / 2) + 1

def natLog2 (n : Nat) : Nat := natLog2Aux n n

/-- Round a rational to the nearest integer, ties to even (the rounding of
the binary64 significand). -/
def rnEven (q : ℚ) : Int :=
  if q - (⌊q⌋ : ℚ) < 1 / 2 then ⌊q⌋
  else if 1 / 2 < q - (⌊q⌋ : ℚ) then ⌊q⌋ + 1
  else if ⌊q⌋ % 2 = 0 then ⌊q⌋ else ⌊q⌋ + 1

/-- `⌊log₂ q⌋` of a positive rational, from the bit lengths of numerator
and denominator: the true binade exponent is `c` or `c - 1` where
`c = log2 num - log2 den`, settled by one comparison. -/
def binadeExp (q : ℚ) : Int :=
  if q < qPow2 ((natLog2 q.num.natAbs : Int) - (natLog2 q.den : Int))
  then (natLog2 q.num.natAbs : Int) - (natLog2 q.den : Int) - 1
  else (natLog2 q.num.natAbs : Int) - (natLog2 q.den : Int)

/-- The rounding quantum of IEEE-754 binary64 in the binade `e`:
`2^(e-52)` for normal values, the fixed `2^(-1074)` below `2^(-1022)`. -/
def floatQuantum (e : Int) : ℚ :=
  if e < -1022 then qPow2 (-1074) else qPow2 (e - 52)

/-- Correct rounding of a rational to an IEEE-754 binary64 value
(round-to-nearest, ties-to-even), expressed over `ℚ`: the semantics of
every CPython float operation on exactly-known operands. -/
def roundFloat (q : ℚ) : ℚ :=
  if q = 0 then 0
  else
    (if q < 0 then (-1 : ℚ) else 1) *
      (rnEven (|q| / floatQuantum (binadeExp |q|)) : ℚ) * floatQuantum (binadeExp |q|)

/-- Python `int()` on a finite float value: truncation toward zero. -/
def pyTrunc (q : ℚ) : Int := if q < 0 then ⌈q⌉ else ⌊q⌋

/-- `estimate_dir_size` (source lines 282-328): count matching files and
estimate the total size by sampling.  `sum(sampled)` and
`count - len(sampled)` are exact `int` arithmetic; the average
`sum(sampled) / len(sampled)` is a correctly rounded binary64 division,
the extrapolation `avg_size * (count - len(sampled))` converts the `int`
to binary64 and multiplies with correct rounding, and `int(...)`
truncates.  Returns `(file_count, size_bytes, is_estimated)`. -/
def estimate_dir_size (readable : Bool) (children : List Entry) (ext : String)
    (sampleSize : Nat := 50) (recursive : Bool := false) : Nat × Nat × Bool :=
  let st := if readable then estScan ext sampleSize recursive children (0, []) else (0, [])
  let count := st.1
  let sampled := st.2
  if sampled = [] then (count, 0, false)
  else if count ≤ sampled.length then (count, sampled.sum, false)
  else
    let avg : ℚ := roundFloat ((sampled.sum : ℚ) / (sampled.length : ℚ))
    let exactPortion := sampled.sum
    let estimatedPortion :=
      (pyTrunc (roundFloat (avg * roundFloat ((count : ℚ) - (sampled.length : ℚ))))).toNat
    (count, exactPortion + estimatedPortion, true)

/-- `classify_fast5_by_size` (source lines 331-348) applied to the result
of `stat` on the sample file (`none` models an `OSError`): files under
1,000,000 bytes are single-read, all others multi-read. -/
def classify_fast5_by_size (statSize : Option Nat) : String :=
  match statSize with
  | none => "fast5_unknown"
  | some sizeBytes =>
      if sizeBytes < 1000000 then "single_read_fast5" else "multi_read_fast5"

/-- `classify_fast5` (source lines 351-358): delegates to the size
heuristic. -/
def classify_fast5 (statSize : Option Nat) : String :=
  classify_fast5_by_size statSize

/-- Per-format detail record: one optional field per dictionary key the
source can set (`none` models key absence). -/
structure FormatDetail where
  directories : Option (List String) := none
  folder_variants : Option (List String) := none
  file_count : Option Nat := none
  data_size_bytes : Option Nat := none
  size_estimated : Option Bool := none
  note : Option String := none
  inaccessible_dirs : Option (List String) := none
  sampled_file : Option String := none
  layout : Option String := none
  size_based_classification : Option Bool := none
  archive_files : Option (List String) := none
  archive_count : Option Nat := none
  reasons : Option (List String) := none
  subdirectory_names : Option (List String) := none
  file_extensions : Option (List (String × Nat)) := none
deriving Repr, DecidableEq

/-- Result of `analyze_run`: ordered format tags and the insertion-ordered
tag-to-detail mapping.  The `chemistry` fields of the source result never
influence `formats`/`details` and are produced by the external metadata
collaborator, so they are not modelled. -/
structure ClassificationResult where
  formats : List String
  details : List (String × FormatDetail)
deriving Repr, DecidableEq

/-- Insert a string into an already-sorted list (for `sorted(set(...))`). -/
def insertSorted (x : String) : List String → List String
  | [] => [x]
  | y :: ys => if x ≤ y then x :: y :: ys else y :: insertSorted x ys

/-- `sorted(...)` over strings. -/
def sortStrings (l : List String) : List String := l.foldr insertSorted []

/-- Insert an extension-count pair into a key-sorted list. -/
def insertPairSorted (x : String × Nat) : List (String × Nat) → List (String × Nat)
  | [] => [x]
  | y :: ys => if x.1 ≤ y.1 then x :: y :: ys else y :: insertPairSorted x ys

/-- `sorted(extensions.items())` (keys are distinct, so key order decides). -/
def sortPairs (l : List (String × Nat)) : List (String × Nat) := l.foldr insertPairSorted []

/-- Path strings of the unreadable directories among a discovered list
(`[str(d) for d in dirs if not _is_dir_readable(d)]`). -/
def unreadableOf (dirs : List (FPath × Entry)) : List String :=
  (dirs.filter (fun pe => !(is_dir_readable pe.2))).map (fun pe => pathStr pe.1)

/-- `sorted(set(d.name for d in dirs))`. -/
def variantNamesOf (dirs : List (FPath × Entry)) : List String :=
  sortStrings ((dirs.map (fun pe => pe.2.name)).dedup)

/-- Phase 4, pod5 detection (source lines 690-724): one optional
`(tag, detail)` item. -/
def pod5Item (quick : Bool) (s : RunStructure) : Option (String × FormatDetail) :=
  let allPod5 := s.pod5 ++ s.pod5_prefixed
  if allPod5.isEmpty then none
  else
    let unreadable := unreadableOf allPod5
    let counts := allPod5.map (fun pe => count_files_recursive pe.2.readable pe.2.children ".pod5")
    let totalPod5 := (counts.map Prod.fst).sum
    let totalPod5Size := (counts.map Prod.snd).sum
    let detail : FormatDetail :=
      { directories := some (allPod5.map (fun pe => pathStr pe.1)),
        folder_variants := some (variantNamesOf allPod5) }
    let detail := if !quick then
        { detail with file_count := some totalPod5, data_size_bytes := some totalPod5Size }
      else detail
    let detail :=
      if !unreadable.isEmpty then
        { detail with
          note := some ("Permission denied on " ++ toString unreadable.length ++ " pod5 dir(s)"),
          inaccessible_dirs := some unreadable }
      else if !quick && totalPod5 = 0 then
        { detail with note := some "Empty pod5 folder(s) found" }
      else detail
    some ("pod5", detail)

/-- The first scandir loop over one fast5 directory (source lines
739-746): stop at the first `.fast5` file, otherwise collect subdirectories
seen before it; the boolean accumulates `has_subdirs`. -/
def fast5ScanTop : List Entry → List Entry → Bool → Option (String × Nat) × List Entry × Bool
  | [], subs, saw => (none, subs, saw)
  | .file n sz :: rest, subs, saw =>
      if strEndsWith n ".fast5" then (some (n, sz), subs, saw)
      else fast5ScanTop rest subs saw
  | .dir n r cs :: rest, subs, _ => fast5ScanTop rest (subs ++ [Entry.dir n r cs]) true

/-- First `.fast5` file among a list of scandir entries (the inner
sub-directory peek loops of the classifier). -/
def firstFast5 : List Entry → Option (String × Nat)
  | [] => none
  | .file n sz :: rest => if strEndsWith n ".fast5" then some (n, sz) else firstFast5 rest
  | .dir _ _ _ :: rest => firstFast5 rest

/-- The one-level subdirectory peek (source lines 747-758): first `.fast5`
file inside any of the collected subdirectories, unreadable ones skipped. -/
def findInSubdirs : List Entry → Option (String × Nat)
  | [] => none
  | .dir _ true cs :: rest =>
      (match firstFast5 cs with
       | some x => some x
       | none => findInSubdirs rest)
  | _ :: rest => findInSubdirs rest

/-- The sampling loop over all discovered fast5 directories (source lines
731-762), skipping the ones recorded unreadable, threading `has_subdirs`. -/
def findFast5Sample (unreadable : List String) :
    List (FPath × Entry) → Bool → Option (String × Nat) × Bool
  | [], saw => (none, saw)
  | (p, d) :: rest, saw =>
      if unreadable.contains (pathStr p) then findFast5Sample unreadable rest saw
      else
        match d with
        | .dir _ true cs =>
            let scan := fast5ScanTop cs [] saw
            (match scan.1 with
             | some x => (some x, scan.2.2)
             | none =>
                 match findInSubdirs scan.2.1 with
                 | some x => (some x, scan.2.2)
                 | none => findFast5Sample unreadable rest scan.2.2)
        | _ => findFast5Sample unreadable rest saw

/-- Phase 5, fast5 detection (source lines 726-822). -/
def fast5Item (quick : Bool) (s : RunStructure) : Option (String × FormatDetail) :=
  let allFast5 := s.fast5 ++ s.fast5_prefixed
  if allFast5.isEmpty then none
  else
    let unreadable := unreadableOf allFast5
    let found := findFast5Sample unreadable allFast5 false
    let hasSubdirs := found.2
    let info : FormatDetail :=
      { directories := some (allFast5.map (fun pe => pathStr pe.1)),
        folder_variants := some (variantNamesOf allFast5) }
    let info := if !unreadable.isEmpty then { info with inaccessible_dirs := some unreadable }
      else info
    match found.1 with
    | some (sname, ssize) =>
        let classification := classify_fast5 (some ssize)
        let info := { info with sampled_file := some sname }
        if classification = "single_read_fast5" then
          let counts := allFast5.map
            (fun pe => estimate_dir_size pe.2.readable pe.2.children ".fast5" 50 true)
          let info := if !quick then
              { info with
                file_count := some ((counts.map (fun t => t.1)).sum),
                data_size_bytes := some ((counts.map (fun t => t.2.1)).sum),
                size_estimated := if counts.any (fun t => t.2.2) then some true else none }
            else info
          let info := { info with note := some (if hasSubdirs then
              "fast5/ contains subdirs with single-read files"
            else "fast5/ contains single-read files") }
          some ("single_read_fast5", info)
        else if classification = "multi_read_fast5" then
          let counts := allFast5.map
            (fun pe => count_files_recursive pe.2.readable pe.2.children ".fast5")
          let info := if !quick then
              { info with
                file_count := some ((counts.map Prod.fst).sum),
                data_size_bytes := some ((counts.map Prod.snd).sum) }
            else info
          some ("multi_read_fast5", info)
        else
          some ("fast5_unknown", info)
    | none =>
        if !unreadable.isEmpty then
          some ("fast5_unknown", { info with note := some ("Permission denied on " ++
            toString unreadable.length ++ " fast5 dir(s) — format unknown") })
        else
          some ("fast5_unknown",
            { info with note := some "Empty fast5 folder(s) found — format unknown" })

/-- The four fastq suffixes counted as one tally. -/
def fastqExts : List String := [".fastq", ".fastq.gz", ".fq", ".fq.gz"]

/-- Phase 6, fastq detection (source lines 824-845). -/
def fastqItem (quick : Bool) (s : RunStructure) : Option (String × FormatDetail) :=
  let fastqDirs := s.fastq_prefixed
  if fastqDirs.isEmpty then none
  else
    let unreadable := unreadableOf fastqDirs
    let counts := fastqDirs.map
      (fun pe => fast_count_files pe.2.readable pe.2.children fastqExts true)
    let totalFastq := (counts.map Prod.fst).sum
    let detail : FormatDetail :=
      { directories := some (fastqDirs.map (fun pe => pathStr pe.1)),
        folder_variants := some (variantNamesOf fastqDirs) }
    let detail := if !quick then
        { detail with
          file_count := some totalFastq,
          data_size_bytes := some ((counts.map Prod.snd).sum) }
      else detail
    let detail :=
      if !unreadable.isEmpty then
        { detail with
          note := some ("Permission denied on " ++ toString unreadable.length ++ " fastq dir(s)"),
          inaccessible_dirs := some unreadable }
      else if !quick && totalFastq = 0 then
        { detail with note := some "Empty fastq folder(s) found" }
      else detail
    some ("fastq", detail)

/-- `re.match(r"^\d+$", name)`: non-empty, digits only. -/
def isNumericName (n : String) : Bool := !n.data.isEmpty && n.data.all Char.isDigit

/-- The root scandir loop of phase 7 (source lines 856-885): first
`.fast5` file in the run root, or — peeking only into the first numeric
subdirectory encountered — inside that subdirectory.  Returns the sample's
name, size, and whether it was found directly in the root. -/
def rootScan : Bool → List Entry → Option (String × Nat × Bool)
  | _, [] => none
  | hasNum, .file n sz :: rest =>
      if strEndsWith n ".fast5" then some (n, sz, true) else rootScan hasNum rest
  | hasNum, .dir n r cs :: rest =>
      if !hasNum && isNumericName n then
        (match (if r then firstFast5 cs else none) with
         | some x => some (x.1, x.2, false)
         | none => rootScan true rest)
      else rootScan hasNum rest

/-- Phase 7, root / numeric-subdir single-read fallback (source lines
847-914), run only when phase 5 discovered no fast5 directories at all. -/
def rootFallbackItem (quick : Bool) (s : RunStructure) (rootReadable : Bool)
    (children : List Entry) : Option (String × FormatDetail) :=
  if !(s.fast5 ++ s.fast5_prefixed).isEmpty then none
  else
    match (if rootReadable then rootScan false children else none) with
    | none => none
    | some (n, sz, inRoot) =>
        let classification := if sz < 1000000 then "single_read_fast5" else "multi_read_fast5"
        let info : FormatDetail :=
          { sampled_file := some n,
            layout := some (if inRoot then "root" else "numeric_subdirs"),
            size_based_classification := some true }
        let info :=
          if !quick && classification = "single_read_fast5" then
            let est := estimate_dir_size rootReadable children ".fast5" 50 true
            { info with
              file_count := some est.1,
              data_size_bytes := some est.2.1,
              size_estimated := if est.2.2 then some true else none }
          else info
        if classification = "single_read_fast5" || classification = "multi_read_fast5" then
          some (classification, info)
        else some ("fast5_unknown", info)

/-- The archive suffix list of phase 8. -/
def archiveExtsList : List String := [".tar", ".gz", ".tar.gz", ".tgz"]

/-- Archive files among the run root's immediate entries. -/
def rootArchives (children : List Entry) : List String :=
  (children.filter
    (fun e => e.isFile && archiveExtsList.any (fun x => strEndsWith e.name x))).map Entry.name

/-- Phase 8, archive fallback (source lines 916-938): only when no
directory named exactly `fast5` was discovered and `single_read_fast5` is
not already among the tags. -/
def archiveItem (s : RunStructure) (rootReadable : Bool) (children : List Entry)
    (formatsSoFar : List String) : Option (String × FormatDetail) :=
  if s.fast5.isEmpty && !(formatsSoFar.contains "single_read_fast5") then
    let archives := if rootReadable then rootArchives children else []
    if archives.isEmpty then none
    else some ("single_read_fast5",
      { directories := some [pathStr []],
        file_count := some 0,
        archive_files := some archives,
        archive_count := some archives.length,
        note := some "Compressed archives found — assumed single-read fast5" })
  else none

/-- The character suffix starting at the rightmost `'.'`, if any
(`name[name.rfind("."):]`). -/
def suffixFromLastDot : List Char → Option (List Char)
  | [] => none
  | c :: rest =>
      match suffixFromLastDot rest with
      | some s => some s
      | none => if c = '.' then some (c :: rest) else none

/-- The extension of a file name, Python style: the substring from the
rightmost dot, lower-cased, or `"(no extension)"` when the name has no
dot (`name.rfind(".")`, source lines 996-997). -/
def extOf (n : String) : String :=
  match suffixFromLastDot n.data with
  | some s => String.mk (s.map Char.toLower)
  | none => "(no extension)"

/-- Tally one extension into the insertion-ordered histogram
(`extensions[ext] = extensions.get(ext, 0) + 1`). -/
def bumpExt (e : String) : List (String × Nat) → List (String × Nat)
  | [] => [(e, 1)]
  | (k, v) :: rest => if k = e then (k, v + 1) :: rest else (k, v) :: bumpExt e rest

/-- The capped enumeration loop of `diagnose_unknown` (source lines
985-998): `entry_count` is incremented and checked against the
5,000-entry cap *before* the entry is tallied; directories go to the
subdirectory-name list, files to the count and extension histogram.
Returns `(subdir_names, file_count, extensions, truncated)`. -/
def diagScan : List Entry → Nat → List String → Nat → List (String × Nat) →
    List String × Nat × List (String × Nat) × Bool
  | [], _, subs, fc, exts => (subs, fc, exts, false)
  | e :: rest, entryCount, subs, fc, exts =>
      let ec := entryCount + 1
      if 5000 ≤ ec then (subs, fc, exts, true)
      else
        match e with
        | .dir n _ _ => diagScan rest ec (subs ++ [n]) fc exts
        | .file n _ => diagScan rest ec subs (fc + 1) (bumpExt (extOf n) exts)

/-- One budget-limited scandir level of `_has_file_with_ext` (source lines
954-970): the entry budget is decremented and checked before each entry is
examined; `recurseInto` handles the next depth level and threads the
budget.  Returns `(found, remaining_budget)`. -/
def hasExtScan (ext : String) (recurseInto : List Entry → Nat → Bool × Nat) :
    List Entry → Nat → Bool × Nat
  | [], b => (false, b)
  | .file n _ :: rest, b =>
      let b' := b - 1
      if b' = 0 then (false, b')
      else if strEndsWith n ext then (true, b')
      else hasExtScan ext recurseInto rest b'
  | .dir _ r cs :: rest, b =>
      let b' := b - 1
      if b' = 0 then (false, b')
      else
        let sub := if r then recurseInto cs b' else (false, b')
        if sub.1 then (true, sub.2) else hasExtScan ext recurseInto rest sub.2

/-- The depth-limited recursion of `_has_file_with_ext`: `fuel` is the
number of levels still allowed to be scanned. -/
def hasExtLevels (ext : String) : Nat → List Entry → Nat → Bool × Nat
  | 0, _, b => (false, b)
  | fuel + 1, children, b => hasExtScan ext (hasExtLevels ext fuel) children b

/-- `_has_file_with_ext` (source lines 949-971): bounded existence search
for a file with the given suffix, depth ≤ 5, entry budget 10,000. -/
def has_file_with_ext (readable : Bool) (children : List Entry) (ext : String)
    (maxDepth : Nat := 5) (maxEntries : Nat := 10000) : Bool :=
  if readable then (hasExtLevels ext maxDepth children maxEntries).1 else false

/-- The first immediate child directory with the given name (the
`run_path / sd_name` lookup of `diagnose_unknown`; the name always comes
from the same listing, so the default is never reached). -/
def childDirByName (children : List Entry) (n : String) : Entry :=
  (children.find? (fun e => e.isDir && e.name == n)).getD (Entry.dir n false [])

/-- `diagnose_unknown` (source lines 974-1061): bounded diagnostic summary
of a run directory that matched no known format. -/
def diagnose_unknown (rootReadable : Bool) (children : List Entry) : FormatDetail :=
  if !rootReadable then { reasons := some ["Permission denied reading directory"] }
  else
    let scan := diagScan children 0 [] 0 []
    let subs := scan.1
    let fileCount := scan.2.1
    let extensions := scan.2.2.1
    let truncated := scan.2.2.2
    let reasons0 : List String :=
      if truncated then ["Sampling stopped at 5000 entries (directory may contain more)"]
      else []
    if subs.isEmpty && fileCount = 0 then
      { reasons := some (reasons0 ++ ["Directory is empty"]) }
    else
      let base : FormatDetail :=
        { reasons := some reasons0,
          subdirectory_names := some subs,
          file_count := some fileCount,
          file_extensions := some extensions }
      if subs.isEmpty then
        let extSorted := sortPairs extensions
        let summary := String.intercalate ", "
          (extSorted.map (fun kv => toString kv.2 ++ "x " ++ kv.1))
        let r1 := if !extensions.isEmpty then
            ["No subdirectories; " ++ toString fileCount ++ " file(s) in root: " ++ summary]
          else
            ["No subdirectories; " ++ toString fileCount ++
              " file(s) with no recognized extensions"]
        let r2 := if !((extensions.map Prod.fst).contains ".fast5" ||
                       (extensions.map Prod.fst).contains ".pod5") then
            ["No .fast5 or .pod5 files found"]
          else []
        { base with reasons := some (reasons0 ++ r1 ++ r2) }
      else
        let r1 := ["Subdirectories found: " ++ String.intercalate ", " (subs.take 10)]
        let readableNames := subs.filter (fun n => (childDirByName children n).readable)
        let unreadableNames := subs.filter (fun n => !(childDirByName children n).readable)
        let base := if !unreadableNames.isEmpty then
            { base with inaccessible_dirs := some unreadableNames }
          else base
        let r2 := if !unreadableNames.isEmpty then
            ["Permission denied on " ++ toString unreadableNames.length ++ " subdir(s): " ++
              String.intercalate ", " (unreadableNames.take 5) ++
              (if 5 < unreadableNames.length then
                " (+" ++ toString (unreadableNames.length - 5) ++ " more)"
               else "")]
          else []
        if readableNames.isEmpty && !unreadableNames.isEmpty then
          { base with reasons := some (reasons0 ++ r1 ++ r2 ++
              ["All subdirectories are unreadable -- cannot determine format"]) }
        else
          let deepDirs := (readableNames.take 10).map (fun n => childDirByName children n)
          let hasDeepFast5 := deepDirs.any
            (fun d => has_file_with_ext d.readable d.children ".fast5")
          let hasDeepPod5 := deepDirs.any
            (fun d => has_file_with_ext d.readable d.children ".pod5")
          let r3 :=
            (if hasDeepFast5 then
              ["Found .fast5 files deeper in tree but not in expected locations (fast5/, root, or numeric subdirs)"]
             else []) ++
            (if hasDeepPod5 then
              ["Found .pod5 files deeper in tree but not in expected pod5/ subdirectory"]
             else []) ++
            (if !hasDeepFast5 && !hasDeepPod5 then
              ["No .fast5 or .pod5 files found anywhere in directory tree"]
             else [])
          { base with reasons := some (reasons0 ++ r1 ++ r2 ++ r3) }

/-- The detection pipeline of `analyze_run` (phases 3-8): the structural
discovery followed by the five tag-producing phases, in source order; each
phase appends at most one `(tag, detail)` item, and the archive phase sees
the tags appended so far. -/
def classifierItems (rootReadable : Bool) (children : List Entry) (quick : Bool) :
    List (String × FormatDetail) :=
  let s := discover_run_structure rootReadable children
  let o4 := pod5Item quick s
  let o5 := fast5Item quick s
  let o6 := fastqItem quick s
  let o7 := rootFallbackItem quick s rootReadable children
  let formatsSoFar := ([o4, o5, o6, o7].filterMap id).map Prod.fst
  let o8 := archiveItem s rootReadable children formatsSoFar
  [o4, o5, o6, o7, o8].filterMap id

/-- `analyze_run` (source lines 631-946): the classifier's decision
procedure over one run directory, given by its readability flag and its
immediate children.  `quick = true` skips the count/size computations. -/
def analyze_run (rootReadable : Bool) (children : List Entry) (quick : Bool) :
    ClassificationResult :=
  if !rootReadable then
    { formats := ["permission_denied"],
      details := [("permission_denied", { reasons := some ["Cannot read run directory"] })] }
  else
    let subdirs := children.filter (fun e => e.isDir)
    let permissionErrors := (subdirs.filter (fun e => !(is_dir_readable e))).map Entry.name
    if !permissionErrors.isEmpty &&
        subdirs.all (fun e => permissionErrors.contains e.name) then
      { formats := ["permission_denied"],
        details := [("permission_denied",
          { reasons := some ["All subdirectories are unreadable (" ++
              toString permissionErrors.length ++ " dir(s))"],
            inaccessible_dirs := some permissionErrors })] }
    else
      let items := classifierItems rootReadable children quick
      let items := if items.isEmpty then
          [("unknown", diagnose_unknown rootReadable children)]
        else items
      { formats := items.map Prod.fst, details := items }

/-! ## General lemmas -/

/-- Nested induction principle for entry lists: the directory case provides
the inductive hypothesis both for the directory's children and for the
remaining siblings. -/
def entryListInd (P : List Entry → Prop)
    (hnil : P [])
    (hfile : ∀ n sz rest, P rest → P (Entry.file n sz :: rest))
    (hdir : ∀ n r cs rest, P cs → P rest → P (Entry.dir n r cs :: rest)) :
    ∀ es, P es
  | [] => hnil
  | .file n sz :: rest => hfile n sz rest (entryListInd P hnil hfile hdir rest)
  | .dir n r cs :: rest => hdir n r cs rest (entryListInd P hnil hfile hdir cs)
      (entryListInd P hnil hfile hdir rest)

/-! ## C1: the 1,000,000-byte size threshold -/

/-- **C1**: for every fast5 sample file whose stat succeeds, the
size-based classifier returns `single_read_fast5` for sizes strictly
below 1,000,000 bytes and `multi_read_fast5` for sizes greater than or
equal to 1,000,000 bytes (so exactly 1,000,000 is multi-read). -/
theorem classify_fast5_by_size_threshold (sizeBytes : Nat) :
    (sizeBytes < 1000000 →
      classify_fast5_by_size (some sizeBytes) = "single_read_fast5") ∧
    (1000000 ≤ sizeBytes →
      classify_fast5_by_size (some sizeBytes) = "multi_read_fast5") := by
  constructor
  · intro h
    simp [classify_fast5_by_size, h]
  · intro h
    simp [classify_fast5_by_size, Nat.not_lt.mpr h]

/-- Witness for C1 at 999,999 and at the boundary 1,000,000. -/
theorem classify_fast5_by_size_threshold_witness :
    classify_fast5_by_size (some 999999) = "single_read_fast5" ∧
    classify_fast5_by_size (some 1000000) = "multi_read_fast5" :=
  ⟨(classify_fast5_by_size_threshold 999999).1 (by norm_num),
   (classify_fast5_by_size_threshold 1000000).2 (by norm_num)⟩

/-! ## C2: skip-on-match in the structural discovery -/

/-- All paths recorded by a discovery walk, across the five categories. -/
def allDiscoveredPaths (s : RunStructure) : List FPath :=
  (s.pod5 ++ s.pod5_prefixed ++ s.fast5 ++ s.fast5_prefixed ++ s.fastq_prefixed).map
    Prod.fst

/-- Every recorded path lies outside every matched directory: all its
strict ancestors (its components except the last) are unmatched names. -/
def ancestorsUnmatched (s : RunStructure) : Prop :=
  ∀ p ∈ allDiscoveredPaths s, ∀ n ∈ p.dropLast, matchCategory n = none

theorem mem_allDiscoveredPaths_add {s : RunStructure} {c : DirCategory}
    {x : FPath × Entry} {p : FPath} (h : p ∈ allDiscoveredPaths (s.add c x)) :
    p ∈ allDiscoveredPaths s ∨ p = x.1 := by
  cases c <;>
    simp only [RunStructure.add, allDiscoveredPaths, List.map_append,
      List.mem_append, List.map_cons, List.map_nil, List.mem_singleton] at h ⊢ <;>
    tauto

theorem discoverScan_ancestors (recurseInto : FPath → List Entry → RunStructure → RunStructure)
    (hrec : ∀ q cs acc, (∀ m ∈ q, matchCategory m = none) →
      ancestorsUnmatched acc → ancestorsUnmatched (recurseInto q cs acc))
    (pre : FPath) (hpre : ∀ m ∈ pre, matchCategory m = none) :
    ∀ es acc, ancestorsUnmatched acc →
      ancestorsUnmatched (discoverScan recurseInto pre es acc) := by
  intro es
  induction es with
  | nil => intro acc h; simpa [discoverScan] using h
  | cons e rest ih =>
    intro acc h
    cases e with
    | file n sz => simpa only [discoverScan] using ih acc h
    | dir n r cs =>
      simp only [discoverScan]
      apply ih
      cases hm : matchCategory n with
      | some c =>
        simp only [hm]
        intro p hp m hmem
        rcases mem_allDiscoveredPaths_add hp with h1 | h2
        · exact h p h1 m hmem
        · subst h2
          simp only [List.dropLast_concat] at hmem
          exact hpre m hmem
      | none =>
        simp only [hm]
        cases r with
        | false => simpa using h
        | true =>
          simp only [if_true]
          refine hrec (pre ++ [n]) cs acc ?_ h
          intro m hmem
          rcases List.mem_append.mp hmem with h1 | h1
          · exact hpre m h1
          · rw [List.mem_singleton.mp h1]; exact hm

theorem discoverLevels_ancestors :
    ∀ (fuel : Nat) (pre : FPath), (∀ m ∈ pre, matchCategory m = none) →
      ∀ es acc, ancestorsUnmatched acc →
        ancestorsUnmatched (discoverLevels fuel pre es acc) := by
  intro fuel
  induction fuel with
  | zero => intro pre _ es acc h; simpa [discoverLevels] using h
  | succ f ih =>
    intro pre hpre es acc h
    exact discoverScan_ancestors (discoverLevels f)
      (fun q cs acc' hq hacc' => ih q hq cs acc' hacc') pre hpre es acc h

/-- **C2**: the discovery walk never recurses into a matched directory:
every recorded path has only unmatched names strictly above it (so no
matched directory's interior contributes entries to any category), and a
`fast5` directory nested inside a `fast5` directory is recorded exactly
once — the outer one. -/
theorem discovery_skip_on_match :
    (∀ (rootReadable : Bool) (children : List Entry),
      ∀ p ∈ allDiscoveredPaths (discover_run_structure rootReadable children),
        ∀ n ∈ p.dropLast, matchCategory n = none) ∧
    (discover_run_structure true
        [Entry.dir "fast5" true [Entry.dir "fast5" true []]]).fast5.map Prod.fst
        = [["fast5"]] ∧
    (allDiscoveredPaths (discover_run_structure true
        [Entry.dir "fast5" true [Entry.dir "fast5" true []]])).length = 1 := by
  refine ⟨?_, rfl, rfl⟩
  intro rootReadable children
  show ancestorsUnmatched _
  unfold discover_run_structure
  cases rootReadable with
  | false => simp [ancestorsUnmatched, allDiscoveredPaths]
  | true =>
    simp only [if_true]
    exact discoverLevels_ancestors 5 [] (by simp) children {}
      (by simp [ancestorsUnmatched, allDiscoveredPaths])

/-- Witness for C2: a concrete discovered path whose ancestor name `"x"`
is indeed unmatched. -/
theorem discovery_skip_on_match_witness :
    ["x", "fast5"] ∈ allDiscoveredPaths (discover_run_structure true
      [Entry.dir "x" true [Entry.dir "fast5" true []]]) ∧
    matchCategory "x" = none :=
  ⟨by decide,
   discovery_skip_on_match.1 true [Entry.dir "x" true [Entry.dir "fast5" true []]]
     ["x", "fast5"] (by decide) "x" (by decide)⟩

/-! ## C3: sampling-based size estimation -/

/-- Sizes of the files a counting/estimation walk matches, in traversal
order (same traversal conditions as `fcfChildren` and `estScan`). -/
def matchedSizes (ext : String) (recursive : Bool) : List Entry → List Nat
  | [] => []
  | .file n sz :: rest =>
      (if strEndsWith n ext then [sz] else []) ++ matchedSizes ext recursive rest
  | .dir _ r cs :: rest =>
      (if recursive && r then matchedSizes ext recursive cs else []) ++
        matchedSizes ext recursive rest

/-- Matched sizes of a whole directory (empty when it is unreadable). -/
def matchedSizesDir (readable : Bool) (children : List Entry) (ext : String)
    (recursive : Bool) : List Nat :=
  if readable then matchedSizes ext recursive children else []

theorem fcfChildren_eq_matchedSizes (ext : String) (recursive : Bool) :
    ∀ es, fcfChildren [ext] recursive es =
      ((matchedSizes ext recursive es).length, (matchedSizes ext recursive es).sum) := by
  intro es
  induction es using entryListInd with
  | hnil => simp [fcfChildren, matchedSizes]
  | hfile n sz rest ih =>
    by_cases h : strEndsWith n ext = true <;>
      simp [fcfChildren, matchedSizes, h, ih, Nat.add_comm]
  | hdir n r cs rest ih1 ih2 =>
    by_cases h : (recursive && r) = true <;>
      simp [fcfChildren, matchedSizes, h, ih1, ih2]

theorem estScan_spec (ext : String) (ssize : Nat) (recursive : Bool) :
    ∀ es (c : Nat) (samp : List Nat),
      estScan ext ssize recursive es (c, samp) =
        (c + (matchedSizes ext recursive es).length,
         samp ++ (matchedSizes ext recursive es).take (ssize - samp.length)) := by
  intro es
  induction es using entryListInd with
  | hnil => simp [estScan, matchedSizes]
  | hfile n sz rest ih =>
    intro c samp
    by_cases h : strEndsWith n ext = true
    · simp only [estScan, matchedSizes, h, if_true]
      by_cases hlen : samp.length < ssize
      · simp only [hlen, if_true]
        rw [ih]
        obtain ⟨k, hk⟩ : ∃ k, ssize - samp.length = k + 1 :=
          ⟨ssize - samp.length - 1, by omega⟩
        have hk2 : ssize - (samp ++ [sz]).length = k := by
          simp only [List.length_append, List.length_cons, List.length_nil]
          omega
        rw [hk, hk2]
        simp only [List.singleton_append, List.take_succ_cons, Prod.mk.injEq,
          List.length_cons]
        refine ⟨by omega, ?_⟩
        simp [List.append_assoc]
      · simp only [hlen, if_false]
        rw [ih]
        have h0 : ssize - samp.length = 0 := by omega
        rw [h0]
        simp only [List.take_zero, List.append_nil, List.singleton_append,
          Prod.mk.injEq, List.length_cons]
        exact ⟨by omega, by simp⟩
    · simp [estScan, matchedSizes, h, ih]
  | hdir n r cs rest ih1 ih2 =>
    intro c samp
    by_cases h : (recursive && r) = true
    · simp only [estScan, matchedSizes, h, if_true]
      rw [ih1, ih2]
      have hlen : (samp ++ (matchedSizes ext recursive cs).take (ssize - samp.length)).length
          = samp.length + min (ssize - samp.length) (matchedSizes ext recursive cs).length := by
        simp [List.length_append, List.length_take]
      rw [List.take_append_eq_append_take, hlen]
      simp only [Prod.mk.injEq, List.length_append]
      refine ⟨by omega, ?_⟩
      rw [List.append_assoc]
      have harg : ssize - (samp.length + min (ssize - samp.length)
            (matchedSizes ext recursive cs).length)
          = ssize - samp.length - (matchedSizes ext recursive cs).length := by omega
      rw [harg]
    · simp [estScan, matchedSizes, h, ih2]

theorem fast_count_files_eq_matchedSizes (readable : Bool) (children : List Entry)
    (ext : String) (recursive : Bool) :
    fast_count_files readable children [ext] recursive =
      ((matchedSizesDir readable children ext recursive).length,
       (matchedSizesDir readable children ext recursive).sum) := by
  cases readable with
  | false => simp [fast_count_files, matchedSizesDir]
  | true => simp [fast_count_files, matchedSizesDir, fcfChildren_eq_matchedSizes]

theorem sum_of_uniform {l : List Nat} {s : Nat} (h : ∀ x ∈ l, x = s) :
    l.sum = l.length * s := by
  induction l with
  | nil => simp
  | cons a t ih =>
    simp only [List.sum_cons, List.length_cons, h a (List.mem_cons_self a t)]
    rw [ih (fun x hx => h x (List.mem_cons_of_mem a hx))]
    ring

/-- Rounding an integer returns it unchanged. -/
theorem rnEven_intCast (m : Int) : rnEven (m : ℚ) = m := by
  simp [rnEven]

theorem natLog2Aux_spec :
    ∀ fuel n, 1 ≤ n → n ≤ fuel →
      2 ^ natLog2Aux fuel n ≤ n ∧ n < 2 ^ (natLog2Aux fuel n + 1) := by
  intro fuel
  induction fuel with
  | zero => intro n h1 h2; omega
  | succ f ih =>
    intro n h1 h2
    by_cases hle : n ≤ 1
    · have hn1 : n = 1 := by omega
      subst hn1
      simp [natLog2Aux]
    · have h2' : n / 2 ≤ f := by omega
      have h1' : 1 ≤ n / 2 := by omega
      obtain ⟨ha, hb⟩ := ih (n / 2) h1' h2'
      simp only [natLog2Aux, if_neg hle]
      rw [pow_succ, pow_succ] at *
      omega

theorem natLog2_spec (n : Nat) (h : 1 ≤ n) :
    2 ^ natLog2 n ≤ n ∧ n < 2 ^ (natLog2 n + 1) :=
  natLog2Aux_spec n n h le_rfl

theorem natLog2_eq_of {n k : Nat} (h1 : 2 ^ k ≤ n) (h2 : n < 2 ^ (k + 1)) :
    natLog2 n = k := by
  have hpos : 1 ≤ n := le_trans Nat.one_le_two_pow h1
  obtain ⟨ha, hb⟩ := natLog2_spec n hpos
  rcases Nat.lt_trichotomy (natLog2 n) k with h | h | h
  · exfalso
    have hc : 2 ^ (natLog2 n + 1) ≤ 2 ^ k := Nat.pow_le_pow_right (by norm_num) (by omega)
    omega
  · exact h
  · exfalso
    have hc : 2 ^ (k + 1) ≤ 2 ^ natLog2 n := Nat.pow_le_pow_right (by norm_num) (by omega)
    omega

theorem qPow2_ofNat (k : Nat) : qPow2 (k : Int) = ((2 ^ k : ℕ) : ℚ) := by
  rw [qPow2, if_pos (by omega), Int.toNat_natCast]

theorem qPow2_neg_natCast (k : Nat) : qPow2 (-(k : Int)) = 1 / ((2 ^ k : ℕ) : ℚ) := by
  rcases Nat.eq_zero_or_pos k with h0 | hpos
  · subst h0; simp [qPow2]
  · rw [qPow2, if_neg (by omega), neg_neg, Int.toNat_natCast]

theorem binadeExp_natCast (n : Nat) (hpos : 0 < n) :
    binadeExp (n : ℚ) = (natLog2 n : Int) := by
  have hnum : ((n : ℚ)).num.natAbs = n := by
    rw [Rat.num_natCast]
    exact Int.natAbs_ofNat n
  have hden : ((n : ℚ)).den = 1 := Rat.den_natCast n
  have hlow := (natLog2_spec n hpos).1
  have h1 : natLog2 1 = 0 := rfl
  rw [binadeExp, hnum, hden, h1, Nat.cast_zero, sub_zero, qPow2_ofNat,
    if_neg (not_lt.mpr (by exact_mod_cast hlow))]

/-- In the binade `[2^53, 2^54)` the quantum is 2, so rounding halves,
rounds to the nearest integer and doubles back. -/
theorem roundFloat_binade53 (n : Nat) (hlow : 2 ^ 53 ≤ n) (hhigh : n < 2 ^ 54) :
    roundFloat (n : ℚ) = (rnEven ((n : ℚ) / 2) : ℚ) * 2 := by
  have hposn : 0 < n := by positivity
  have hpos : (0 : ℚ) < (n : ℚ) := by exact_mod_cast hposn
  have hq0 : ((n : ℚ)) ≠ 0 := ne_of_gt hpos
  have habs : |((n : ℚ))| = (n : ℚ) := abs_of_pos hpos
  have hlog : natLog2 n = 53 := natLog2_eq_of hlow (by norm_num; omega)
  have hbin : binadeExp (n : ℚ) = (53 : Int) := by
    rw [binadeExp_natCast n hposn, hlog]
    rfl
  have hquant : floatQuantum (53 : Int) = 2 := by
    rw [floatQuantum, if_neg (by omega)]
    norm_num [qPow2]
  rw [roundFloat, if_neg hq0, if_neg (not_lt.mpr hpos.le), habs, hbin, hquant, one_mul]

/-- Every natural number up to `2^53` is exactly representable in
binary64, so correct rounding returns it unchanged. -/
theorem roundFloat_natCast (n : Nat) (h : n ≤ 2 ^ 53) :
    roundFloat (n : ℚ) = (n : ℚ) := by
  rcases Nat.eq_zero_or_pos n with h0 | hpos
  · subst h0; simp [roundFloat]
  have hq0 : ((n : ℚ)) ≠ 0 := Nat.cast_ne_zero.mpr (by omega)
  have hqpos : (0 : ℚ) < (n : ℚ) := by exact_mod_cast hpos
  have habs : |((n : ℚ))| = (n : ℚ) := abs_of_pos hqpos
  obtain ⟨hlow, hhigh⟩ := natLog2_spec n hpos
  have he53 : natLog2 n ≤ 53 := by
    by_contra hgt
    push_neg at hgt
    have h54 : (2 : ℕ) ^ 54 ≤ 2 ^ natLog2 n := Nat.pow_le_pow_right (by norm_num) hgt
    have := le_trans (le_trans h54 hlow) h
    norm_num at this
  rcases Nat.lt_or_ge (natLog2 n) 53 with hlt | hge
  · -- the quantum is 1 / 2 ^ (52 - natLog2 n), so n scales to an integer
    have hk : (natLog2 n : Int) - 52 = -((52 - natLog2 n : ℕ) : Int) := by omega
    have hquant : floatQuantum (binadeExp (n : ℚ))
        = 1 / ((2 ^ (52 - natLog2 n) : ℕ) : ℚ) := by
      rw [binadeExp_natCast n hpos, floatQuantum, if_neg (by omega), hk, qPow2_neg_natCast]
    have hdiv : (n : ℚ) / (1 / ((2 ^ (52 - natLog2 n) : ℕ) : ℚ))
        = ((n * 2 ^ (52 - natLog2 n) : ℕ) : ℚ) := by
      rw [one_div, div_eq_mul_inv, inv_inv]
      push_cast
      ring
    have hrn : rnEven ((n * 2 ^ (52 - natLog2 n) : ℕ) : ℚ)
        = ((n * 2 ^ (52 - natLog2 n) : ℕ) : Int) := by
      have hx := rnEven_intCast ((n * 2 ^ (52 - natLog2 n) : ℕ) : Int)
      rwa [Int.cast_natCast] at hx
    rw [roundFloat, if_neg hq0, if_neg (not_lt.mpr hqpos.le), habs, hquant, hdiv, hrn]
    have h2ne : (((2 ^ (52 - natLog2 n) : ℕ) : ℚ)) ≠ 0 := by positivity
    push_cast
    field_simp
  · -- natLog2 n = 53 forces n = 2 ^ 53, which is exactly representable
    have h53 : natLog2 n = 53 := le_antisymm he53 hge
    rw [h53] at hlow
    have hn : n = 2 ^ 53 := le_antisymm h hlow
    subst hn
    rw [roundFloat_binade53 (2 ^ 53) le_rfl (by norm_num)]
    have hhalf : ((2 ^ 53 : ℕ) : ℚ) / 2 = (((2 ^ 52 : ℕ) : ℤ) : ℚ) := by
      push_cast
      norm_num
    rw [hhalf, rnEven_intCast]
    push_cast
    ring

theorem pyTrunc_natCast (m : Nat) : pyTrunc ((m : ℕ) : ℚ) = m := by
  rw [pyTrunc, if_neg (not_lt.mpr (Nat.cast_nonneg m)), Int.floor_natCast]

theorem roundFloat_zero : roundFloat 0 = 0 := by
  simp [roundFloat]

/-- The first half-way case above the exact range rounds to even:
`2^53 + 1` becomes `2^53`. -/
theorem roundFloat_tie : roundFloat ((2 ^ 53 + 1 : ℕ) : ℚ) = ((2 ^ 53 : ℕ) : ℚ) := by
  rw [roundFloat_binade53 (2 ^ 53 + 1) (by norm_num) (by norm_num)]
  have hfloor : ⌊((2 ^ 53 + 1 : ℕ) : ℚ) / 2⌋ = 2 ^ 52 := by
    rw [Int.floor_eq_iff]
    constructor
    · push_cast
      norm_num
    · push_cast
      norm_num
  have hr : ((2 ^ 53 + 1 : ℕ) : ℚ) / 2 - ((2 ^ 52 : ℤ) : ℚ) = 1 / 2 := by
    push_cast
    ring_nf
  rw [rnEven, hfloor, hr]
  norm_num

/-- **C3** counterexample: "exactly the true total byte size for every
choice of `sample_size`" fails twice over.  With `sample_size = 0` nothing
is sampled and the returned size is 0 on a single 5-byte matching file;
and even with `sample_size = 1`, two matching files of `2^53 + 1` bytes
each make the binary64 average round down to `2^53` (ties-to-even), so
the estimator returns `2^54 + 1` bytes where the true total (as computed
by the exact counter over the same traversal) is `2^54 + 2`. -/
theorem estimate_dir_size_cex :
    ((∀ sz ∈ matchedSizesDir true [Entry.file "a.fast5" 5] ".fast5" false, sz = 5) ∧
      (fast_count_files true [Entry.file "a.fast5" 5] [".fast5"] false).2 = 5 ∧
      (estimate_dir_size true [Entry.file "a.fast5" 5] ".fast5" 0 false).2.1 ≠
        (fast_count_files true [Entry.file "a.fast5" 5] [".fast5"] false).2) ∧
    ((∀ sz ∈ matchedSizesDir true
        [Entry.file "a.fast5" (2 ^ 53 + 1), Entry.file "b.fast5" (2 ^ 53 + 1)]
        ".fast5" false, sz = 2 ^ 53 + 1) ∧
      (fast_count_files true
        [Entry.file "a.fast5" (2 ^ 53 + 1), Entry.file "b.fast5" (2 ^ 53 + 1)]
        [".fast5"] false).2 = 2 ^ 54 + 2 ∧
      (estimate_dir_size true
        [Entry.file "a.fast5" (2 ^ 53 + 1), Entry.file "b.fast5" (2 ^ 53 + 1)]
        ".fast5" 1 false).2.1 = 2 ^ 54 + 1 ∧
      (estimate_dir_size true
        [Entry.file "a.fast5" (2 ^ 53 + 1), Entry.file "b.fast5" (2 ^ 53 + 1)]
        ".fast5" 1 false).2.1 ≠
        (fast_count_files true
          [Entry.file "a.fast5" (2 ^ 53 + 1), Entry.file "b.fast5" (2 ^ 53 + 1)]
          [".fast5"] false).2) := by
  have e1 : strEndsWith "a.fast5" ".fast5" = true := rfl
  have e2 : strEndsWith "b.fast5" ".fast5" = true := rfl
  have hbig : (estimate_dir_size true
      [Entry.file "a.fast5" (2 ^ 53 + 1), Entry.file "b.fast5" (2 ^ 53 + 1)]
      ".fast5" 1 false).2.1 = 2 ^ 54 + 1 := by
    have hst : (if true then estScan ".fast5" 1 false
        [Entry.file "a.fast5" (2 ^ 53 + 1), Entry.file "b.fast5" (2 ^ 53 + 1)] (0, [])
        else (0, [])) = (2, [2 ^ 53 + 1]) := by
      simp [estScan, e1, e2]
    rw [estimate_dir_size, hst]
    simp only [List.sum_cons, List.sum_nil, List.length_cons, List.length_nil,
      Nat.add_zero, Nat.zero_add]
    rw [if_neg (by simp), if_neg (by norm_num)]
    have havg : roundFloat (((2 ^ 53 + 1 : ℕ) : ℚ) / ((1 : ℕ) : ℚ)) = ((2 ^ 53 : ℕ) : ℚ) := by
      rw [Nat.cast_one, div_one, roundFloat_tie]
    have hdiff : roundFloat (((2 : ℕ) : ℚ) - ((1 : ℕ) : ℚ)) = (1 : ℚ) := by
      rw [show (((2 : ℕ) : ℚ) - ((1 : ℕ) : ℚ)) = ((1 : ℕ) : ℚ) by push_cast; ring]
      rw [roundFloat_natCast 1 (by norm_num)]
      norm_num
    rw [havg, hdiff, mul_one, roundFloat_natCast (2 ^ 53) (by norm_num), pyTrunc_natCast]
    simp only [Int.toNat_natCast]
    norm_num
  have hfcfbig : (fast_count_files true
      [Entry.file "a.fast5" (2 ^ 53 + 1), Entry.file "b.fast5" (2 ^ 53 + 1)]
      [".fast5"] false).2 = 2 ^ 54 + 2 := by
    simp [fast_count_files, fcfChildren, e1, e2]
  refine ⟨⟨?_, ?_, ?_⟩, ⟨?_, hfcfbig, hbig, ?_⟩⟩
  · simp [matchedSizesDir, matchedSizes, e1]
  · simp [fast_count_files, fcfChildren, e1]
  · simp [estimate_dir_size, estScan, fast_count_files, fcfChildren, e1]
  · simp [matchedSizesDir, matchedSizes, e1, e2]
  · rw [hbig, hfcfbig]
    norm_num

/-- **C3** (amended): for every directory whose matching files all have
the same size, `estimate_dir_size` returns the exact matching-file count
and — provided `sample_size ≥ 1` and the true total byte size is at most
`2^53` (inside the exactly-representable range of binary64, about 9 PB)
— exactly the true total byte size (the count and total computed by the
exact counter `fast_count_files` over the same traversal); and whenever
the matching-file count is at most `sample_size`, the returned
`is_estimated` flag is `false` and the returned size is the exact sum of
the sampled sizes (all matched files). -/
theorem estimate_dir_size_exact_cases (readable : Bool) (children : List Entry)
    (ext : String) (ssize : Nat) (recursive : Bool) (s : Nat) :
    (1 ≤ ssize →
      (∀ sz ∈ matchedSizesDir readable children ext recursive, sz = s) →
      (fast_count_files readable children [ext] recursive).2 ≤ 2 ^ 53 →
      (estimate_dir_size readable children ext ssize recursive).1 =
          (fast_count_files readable children [ext] recursive).1 ∧
        (estimate_dir_size readable children ext ssize recursive).2.1 =
          (fast_count_files readable children [ext] recursive).2) ∧
    ((fast_count_files readable children [ext] recursive).1 ≤ ssize →
      (estimate_dir_size readable children ext ssize recursive).2.2 = false ∧
      (estimate_dir_size readable children ext ssize recursive).2.1 =
        (fast_count_files readable children [ext] recursive).2) := by
  have hfcf := fast_count_files_eq_matchedSizes readable children ext recursive
  set ms := matchedSizesDir readable children ext recursive with hmsdef
  have hst : (if readable then estScan ext ssize recursive children (0, []) else (0, [])) =
      (ms.length, ms.take ssize) := by
    cases readable with
    | false => simp [hmsdef, matchedSizesDir]
    | true => simp [hmsdef, matchedSizesDir, estScan_spec]
  have hest : estimate_dir_size readable children ext ssize recursive =
      (if ms.take ssize = [] then (ms.length, 0, false)
       else if ms.length ≤ (ms.take ssize).length then
         (ms.length, (ms.take ssize).sum, false)
       else
         (ms.length, (ms.take ssize).sum +
           (pyTrunc (roundFloat
             (roundFloat (((ms.take ssize).sum : ℚ) / ((ms.take ssize).length : ℚ)) *
               roundFloat ((ms.length : ℚ) - ((ms.take ssize).length : ℚ))))).toNat,
          true)) := by
    rw [estimate_dir_size, hst]
  rw [hest, hfcf]
  by_cases hempty : ms.take ssize = []
  · rw [if_pos hempty]
    rcases List.take_eq_nil_iff.mp hempty with h0 | h0
    · -- ssize = 0: part A vacuous, part B forces ms = []
      subst h0
      refine ⟨fun h1 _ _ => absurd h1 (by omega), fun hcnt => ?_⟩
      have : ms = [] := List.eq_nil_of_length_eq_zero (by omega)
      simp [this]
    · simp [h0]
  · rw [if_neg hempty]
    have hlen : (ms.take ssize).length = min ssize ms.length := List.length_take ..
    by_cases hle : ms.length ≤ (ms.take ssize).length
    · rw [if_pos hle]
      have hall : ms.take ssize = ms := by
        apply List.take_of_length_le
        omega
      simp [hall]
    · rw [if_neg hle]
      have hslt : ssize < ms.length := by omega
      have hsampLen : (ms.take ssize).length = ssize := by omega
      constructor
      · intro hs1 huni htot
        refine ⟨rfl, ?_⟩
        have hunit : ∀ x ∈ ms.take ssize, x = s :=
          fun x hx => huni x (List.take_subset ssize ms hx)
        have hsum1 : (ms.take ssize).sum = ssize * s := by
          rw [sum_of_uniform hunit, hsampLen]
        have hsum2 : ms.sum = ms.length * s := sum_of_uniform huni
        have htot' : ms.length * s ≤ 2 ^ 53 := by
          rw [show ((ms.length, ms.sum).2 : ℕ) = ms.sum from rfl, hsum2] at htot
          exact htot
        rw [hsum1, hsum2, hsampLen]
        rcases Nat.eq_zero_or_pos s with hs0 | hspos
        · -- all matched files are empty: both sides are 0
          subst hs0
          have hz : ((ssize * 0 : ℕ) : ℚ) / ((ssize : ℕ) : ℚ) = 0 := by
            push_cast
            simp
          rw [hz, roundFloat_zero, zero_mul, roundFloat_zero]
          simp [pyTrunc]
        · -- file size at least 1: every float step is exact below 2^53
          have hlen1 : 0 < ms.length := by omega
          have hs53 : s ≤ 2 ^ 53 := le_trans (Nat.le_mul_of_pos_left s hlen1) htot'
          have hd53 : ms.length - ssize ≤ 2 ^ 53 := by
            have hx : ms.length ≤ ms.length * s := Nat.le_mul_of_pos_right _ hspos
            omega
          have hp53 : s * (ms.length - ssize) ≤ 2 ^ 53 := by
            calc s * (ms.length - ssize) ≤ s * ms.length :=
                  Nat.mul_le_mul_left s (by omega)
              _ = ms.length * s := Nat.mul_comm ..
              _ ≤ 2 ^ 53 := htot'
          have hne : (((ssize : ℕ)) : ℚ) ≠ 0 := Nat.cast_ne_zero.mpr (by omega)
          have havg : (((ssize * s : ℕ) : ℚ) / ((ssize : ℕ) : ℚ)) = ((s : ℕ) : ℚ) := by
            push_cast
            rw [mul_comm, mul_div_assoc, div_self hne, mul_one]
          have hdiff : ((ms.length : ℚ) - ((ssize : ℕ) : ℚ))
              = ((ms.length - ssize : ℕ) : ℚ) := by
            push_cast [Nat.cast_sub (le_of_lt hslt)]
            ring
          have hprod : ((s : ℕ) : ℚ) * ((ms.length - ssize : ℕ) : ℚ)
              = ((s * (ms.length - ssize) : ℕ) : ℚ) := by
            push_cast
            ring
          rw [havg, roundFloat_natCast s hs53, hdiff, roundFloat_natCast _ hd53, hprod,
            roundFloat_natCast _ hp53, pyTrunc_natCast, Int.toNat_natCast]
          obtain ⟨d, hd⟩ : ∃ d, ms.length = ssize + d := ⟨ms.length - ssize, by omega⟩
          rw [hd]
          simp only [Nat.add_sub_cancel_left]
          ring
      · intro hcnt
        omega

/-- Witness for C3 (amended): two 5-byte matching files sampled with
`sample_size = 1` extrapolate to the exact total 10, and a single matching
file is within the sample, so nothing is estimated. -/
theorem estimate_dir_size_exact_cases_witness :
    (estimate_dir_size true [Entry.file "a.fast5" 5, Entry.file "b.fast5" 5]
        ".fast5" 1 false).2.1 =
      (fast_count_files true [Entry.file "a.fast5" 5, Entry.file "b.fast5" 5]
        [".fast5"] false).2 ∧
    (estimate_dir_size true [Entry.file "a.fast5" 5] ".fast5" 1 false).2.2 = false := by
  have e1 : strEndsWith "a.fast5" ".fast5" = true := rfl
  have e2 : strEndsWith "b.fast5" ".fast5" = true := rfl
  exact ⟨((estimate_dir_size_exact_cases true
        [Entry.file "a.fast5" 5, Entry.file "b.fast5" 5] ".fast5" 1 false 5).1
      (by norm_num) (by simp [matchedSizesDir, matchedSizes, e1, e2])
      (by norm_num [fast_count_files, fcfChildren, e1, e2])).2,
    ((estimate_dir_size_exact_cases true [Entry.file "a.fast5" 5] ".fast5" 1 false 5).2
      (by norm_num [fast_count_files, fcfChildren, e1])).1⟩

/-! ## C4: the permission gates -/

/-- **C4**: a run directory with at least one immediate subdirectory all
of whose immediate subdirectories are unreadable yields exactly the single
tag `permission_denied` (and a details mapping holding only that key, so
no further classification phase ran); likewise when the run directory
itself cannot be listed. -/
theorem analyze_run_permission_gates :
    (∀ (children : List Entry) (quick : Bool),
      (∃ e ∈ children, e.isDir = true) →
      (∀ e ∈ children, e.isDir = true → e.readable = false) →
      (analyze_run true children quick).formats = ["permission_denied"] ∧
      (analyze_run true children quick).details.map Prod.fst = ["permission_denied"]) ∧
    (∀ (children : List Entry) (quick : Bool),
      (analyze_run false children quick).formats = ["permission_denied"] ∧
      (analyze_run false children quick).details.map Prod.fst = ["permission_denied"]) := by
  constructor
  · intro children quick hex hall
    have hsub : (children.filter (fun e => e.isDir)).filter (fun e => !(is_dir_readable e)) =
        children.filter (fun e => e.isDir) := by
      apply List.filter_eq_self.mpr
      intro e he
      have hm := List.mem_filter.mp he
      simp [is_dir_readable, hall e hm.1 hm.2]
    have hne : children.filter (fun e => e.isDir) ≠ [] := by
      rcases hex with ⟨e, he, hd⟩
      exact List.ne_nil_of_mem (List.mem_filter.mpr ⟨he, hd⟩)
    have hcond : (!(((children.filter (fun e => e.isDir)).filter
            (fun e => !(is_dir_readable e))).map Entry.name).isEmpty &&
          (children.filter (fun e => e.isDir)).all
            (fun e => (((children.filter (fun e => e.isDir)).filter
              (fun e => !(is_dir_readable e))).map Entry.name).contains e.name)) = true := by
      rw [hsub]
      simp only [Bool.and_eq_true, List.all_eq_true]
      constructor
      · simp only [Bool.not_eq_true']
        exact List.isEmpty_eq_false.mpr (by
          intro hmap
          exact hne (List.map_eq_nil_iff.mp hmap))
      · intro e he
        exact List.elem_eq_true_of_mem (List.mem_map_of_mem Entry.name he)
    simp only [analyze_run, Bool.not_true, Bool.false_eq_true, if_false, hcond, if_true]
    constructor <;> trivial
  · intro children quick
    simp only [analyze_run, Bool.not_false, if_true]
    constructor <;> trivial

/-- Witness for C4: one unreadable subdirectory, and an unreadable root. -/
theorem analyze_run_permission_gates_witness :
    (analyze_run true [Entry.dir "a" false []] false).formats = ["permission_denied"] ∧
    (analyze_run false [] false).formats = ["permission_denied"] :=
  ⟨(analyze_run_permission_gates.1 [Entry.dir "a" false []] false
      (by decide) (by decide)).1,
   (analyze_run_permission_gates.2 [] false).1⟩

/-! ## C7: quick mode changes no tag -/

theorem pod5Item_fst (q q' : Bool) (s : RunStructure) :
    (pod5Item q s).map Prod.fst = (pod5Item q' s).map Prod.fst := by
  simp only [pod5Item]
  by_cases h : (s.pod5 ++ s.pod5_prefixed).isEmpty = true <;> simp [h]

theorem fast5Item_fst (q q' : Bool) (s : RunStructure) :
    (fast5Item q s).map Prod.fst = (fast5Item q' s).map Prod.fst := by
  simp only [fast5Item]
  by_cases h : (s.fast5 ++ s.fast5_prefixed).isEmpty = true
  · simp [h]
  · simp only [h, Bool.false_eq_true, if_false]
    rcases hfound : (findFast5Sample (unreadableOf (s.fast5 ++ s.fast5_prefixed))
        (s.fast5 ++ s.fast5_prefixed) false).1 with _ | ⟨sname, ssize⟩
    · by_cases hu : (unreadableOf (s.fast5 ++ s.fast5_prefixed)).isEmpty = true <;>
        simp [hu]
    · by_cases h1 : classify_fast5 (some ssize) = "single_read_fast5"
      · simp only [h1, ite_true]
        rfl
      · by_cases h2 : classify_fast5 (some ssize) = "multi_read_fast5" <;>
          · simp only [h1, h2, ite_true, ite_false]
            try rfl

theorem fastqItem_fst (q q' : Bool) (s : RunStructure) :
    (fastqItem q s).map Prod.fst = (fastqItem q' s).map Prod.fst := by
  simp only [fastqItem]
  by_cases h : s.fastq_prefixed.isEmpty = true
  · simp [h]
  · by_cases hu : (unreadableOf s.fastq_prefixed).isEmpty = true <;> simp [h, hu]

theorem rootFallbackItem_fst (q q' : Bool) (s : RunStructure) (rootReadable : Bool)
    (children : List Entry) :
    (rootFallbackItem q s rootReadable children).map Prod.fst =
      (rootFallbackItem q' s rootReadable children).map Prod.fst := by
  simp only [rootFallbackItem]
  by_cases h : (s.fast5 ++ s.fast5_prefixed).isEmpty = true
  · simp only [h]
    rcases hscan : (if rootReadable then rootScan false children else none) with _ | ⟨n, sz, inRoot⟩
    · simp
    · by_cases hsz : sz < 1000000 <;> simp [hsz]
  · simp [h]

theorem filterMap_fst_congr {α β : Type _} :
    ∀ (l1 l2 : List (Option (α × β))),
      l1.map (Option.map Prod.fst) = l2.map (Option.map Prod.fst) →
      (l1.filterMap id).map Prod.fst = (l2.filterMap id).map Prod.fst := by
  intro l1
  induction l1 with
  | nil =>
    intro l2 h
    cases l2 with
    | nil => rfl
    | cons o2 t2 => simp at h
  | cons o1 t1 ih =>
    intro l2 h
    cases l2 with
    | nil => simp at h
    | cons o2 t2 =>
      simp only [List.map_cons, List.cons.injEq] at h
      obtain ⟨h1, h2⟩ := h
      cases o1 with
      | none =>
        cases o2 with
        | none => simpa using ih t2 h2
        | some p2 => simp at h1
      | some p1 =>
        cases o2 with
        | none => simp at h1
        | some p2 =>
          have h1' : p1.1 = p2.1 := by simpa using h1
          simp only [List.filterMap_cons, id_eq, List.map_cons]
          rw [h1', ih t2 h2]

theorem classifierItems_fst (rootReadable : Bool) (children : List Entry) (q q' : Bool) :
    (classifierItems rootReadable children q).map Prod.fst =
      (classifierItems rootReadable children q').map Prod.fst := by
  simp only [classifierItems]
  have hfso : (([pod5Item q (discover_run_structure rootReadable children),
        fast5Item q (discover_run_structure rootReadable children),
        fastqItem q (discover_run_structure rootReadable children),
        rootFallbackItem q (discover_run_structure rootReadable children) rootReadable
          children].filterMap id).map Prod.fst) =
      (([pod5Item q' (discover_run_structure rootReadable children),
        fast5Item q' (discover_run_structure rootReadable children),
        fastqItem q' (discover_run_structure rootReadable children),
        rootFallbackItem q' (discover_run_structure rootReadable children) rootReadable
          children].filterMap id).map Prod.fst) := by
    apply filterMap_fst_congr
    simp only [List.map_cons, List.map_nil, List.cons.injEq]
    exact ⟨pod5Item_fst q q' _, fast5Item_fst q q' _, fastqItem_fst q q' _,
      rootFallbackItem_fst q q' _ rootReadable children, trivial⟩
  apply filterMap_fst_congr
  simp only [List.map_cons, List.map_nil, List.cons.injEq]
  refine ⟨pod5Item_fst q q' _, fast5Item_fst q q' _, fastqItem_fst q q' _,
    rootFallbackItem_fst q q' _ rootReadable children, ?_, trivial⟩
  rw [hfso]

/-- **C7**: `analyze_run` in quick mode produces exactly the same ordered
formats list as in full mode on every run directory; quick mode only skips
count/size statistics inside the detail records. -/
theorem analyze_run_quick_same_formats (rootReadable : Bool) (children : List Entry) :
    (analyze_run rootReadable children true).formats =
      (analyze_run rootReadable children false).formats := by
  cases rootReadable with
  | false => rfl
  | true =>
    simp only [analyze_run]
    by_cases hgate : (!(((children.filter (fun e => e.isDir)).filter
          (fun e => !(is_dir_readable e))).map Entry.name).isEmpty &&
        (children.filter (fun e => e.isDir)).all
          (fun e => (((children.filter (fun e => e.isDir)).filter
            (fun e => !(is_dir_readable e))).map Entry.name).contains e.name)) = true
    · rw [if_pos hgate, if_pos hgate]
    · rw [if_neg hgate, if_neg hgate]
      have hfst := classifierItems_fst true children true false
      have hemp : (classifierItems true children true).isEmpty =
          (classifierItems true children false).isEmpty := by
        cases h1 : classifierItems true children true with
        | nil =>
          cases h2 : classifierItems true children false with
          | nil => rfl
          | cons a t => rw [h1, h2] at hfst; simp at hfst
        | cons a t =>
          cases h2 : classifierItems true children false with
          | nil => rw [h1, h2] at hfst; simp at hfst
          | cons b t2 => rfl
      by_cases he : (classifierItems true children true).isEmpty = true
      · have he' : (classifierItems true children false).isEmpty = true := by
          rw [← hemp]; exact he
        simp [he, he']
      · have he' : ¬ ((classifierItems true children false).isEmpty = true) := by
          rw [← hemp]; exact he
        simp [he, he', hfst]

/-! ## C8 and C10: tag-set lemmas for the phases -/

theorem pod5Item_tag {q : Bool} {s : RunStructure} {x : String × FormatDetail}
    (h : pod5Item q s = some x) : x.1 = "pod5" := by
  simp only [pod5Item] at h
  split at h
  · exact absurd h (by simp)
  · exact (congrArg Prod.fst (Option.some.inj h)).symm

theorem fast5Item_tag {q : Bool} {s : RunStructure} {x : String × FormatDetail}
    (h : fast5Item q s = some x) :
    x.1 = "single_read_fast5" ∨ x.1 = "multi_read_fast5" ∨ x.1 = "fast5_unknown" := by
  simp only [fast5Item] at h
  split at h
  · exact absurd h (by simp)
  · split at h
    · split at h
      · exact Or.inl (congrArg Prod.fst (Option.some.inj h)).symm
      · split at h
        · exact Or.inr (Or.inl (congrArg Prod.fst (Option.some.inj h)).symm)
        · exact Or.inr (Or.inr (congrArg Prod.fst (Option.some.inj h)).symm)
    · split at h
      · exact Or.inr (Or.inr (congrArg Prod.fst (Option.some.inj h)).symm)
      · exact Or.inr (Or.inr (congrArg Prod.fst (Option.some.inj h)).symm)

theorem fast5Item_some_not_empty {q : Bool} {s : RunStructure}
    {x : String × FormatDetail} (h : fast5Item q s = some x) :
    (s.fast5 ++ s.fast5_prefixed).isEmpty = false := by
  simp only [fast5Item] at h
  split at h
  · exact absurd h (by simp)
  · rename_i hcond
    exact Bool.not_eq_true _ ▸ Bool.of_not_eq_true hcond

theorem fastqItem_tag {q : Bool} {s : RunStructure} {x : String × FormatDetail}
    (h : fastqItem q s = some x) : x.1 = "fastq" := by
  simp only [fastqItem] at h
  split at h
  · exact absurd h (by simp)
  · exact (congrArg Prod.fst (Option.some.inj h)).symm

theorem rootFallbackItem_tag {q : Bool} {s : RunStructure} {rootReadable : Bool}
    {children : List Entry} {x : String × FormatDetail}
    (h : rootFallbackItem q s rootReadable children = some x) :
    x.1 = "single_read_fast5" ∨ x.1 = "multi_read_fast5" ∨ x.1 = "fast5_unknown" := by
  simp only [rootFallbackItem] at h
  split at h
  · exact absurd h (by simp)
  · split at h
    · exact absurd h (by simp)
    · split at h <;>
        first
          | exact Or.inl (congrArg Prod.fst (Option.some.inj h)).symm
          | exact Or.inr (Or.inl (congrArg Prod.fst (Option.some.inj h)).symm)
          | exact Or.inr (Or.inr (congrArg Prod.fst (Option.some.inj h)).symm)
          | exact absurd h (by simp)

theorem rootFallbackItem_none {q : Bool} {s : RunStructure} {rootReadable : Bool}
    {children : List Entry}
    (h : (s.fast5 ++ s.fast5_prefixed).isEmpty = false) :
    rootFallbackItem q s rootReadable children = none := by
  simp [rootFallbackItem, h]

theorem archiveItem_tag {s : RunStructure} {rootReadable : Bool}
    {children : List Entry} {fsofar : List String} {x : String × FormatDetail}
    (h : archiveItem s rootReadable children fsofar = some x) :
    x.1 = "single_read_fast5" ∧ fsofar.contains "single_read_fast5" = false := by
  simp only [archiveItem] at h
  split at h
  · rename_i hcond
    have hc2 : fsofar.contains "single_read_fast5" = false := by
      have h2 := (Bool.and_eq_true _ _).mp hcond
      simpa using h2.2
    refine ⟨?_, hc2⟩
    split at h <;>
      (split at h <;>
        first
          | exact (congrArg Prod.fst (Option.some.inj h)).symm
          | exact absurd h (by simp))
  · exact absurd h (by simp)

theorem classifierItems_keys (rootReadable : Bool) (children : List Entry) (q : Bool) :
    ∀ t ∈ (classifierItems rootReadable children q).map Prod.fst,
      t = "pod5" ∨ t = "single_read_fast5" ∨ t = "multi_read_fast5" ∨
        t = "fast5_unknown" ∨ t = "fastq" := by
  intro t ht
  rcases List.mem_map.mp ht with ⟨p, hp, rfl⟩
  simp only [classifierItems] at hp
  rcases List.mem_filterMap.mp hp with ⟨o, ho, hsome⟩
  simp only [id_eq] at hsome
  simp only [List.mem_cons, List.not_mem_nil, or_false] at ho
  rcases ho with h | h | h | h | h
  · subst h
    exact Or.inl (pod5Item_tag hsome)
  · subst h
    rcases fast5Item_tag hsome with h' | h' | h' <;> simp [h']
  · subst h
    simp [fastqItem_tag hsome]
  · subst h
    rcases rootFallbackItem_tag hsome with h' | h' | h' <;> simp [h']
  · subst h
    simp [(archiveItem_tag hsome).1]

/-- **C8**: every result of `analyze_run` carries at least one tag: when
no detection phase appended anything the terminal fallback appends
`unknown`, with the diagnostic reporter's output as its detail record. -/
theorem analyze_run_formats_nonempty (rootReadable : Bool) (children : List Entry)
    (quick : Bool) :
    (analyze_run rootReadable children quick).formats ≠ [] ∧
    ("unknown" ∈ (analyze_run rootReadable children quick).formats →
      (analyze_run rootReadable children quick).details.lookup "unknown" =
        some (diagnose_unknown rootReadable children)) := by
  cases rootReadable with
  | false =>
    constructor
    · simp [analyze_run]
    · intro hmem
      have h1 : (analyze_run false children quick).formats = ["permission_denied"] := rfl
      rw [h1] at hmem
      simp only [List.mem_singleton] at hmem
      exact absurd hmem (by decide)
  | true =>
    simp only [analyze_run]
    rw [if_neg (by simp : ¬ ((!true) = true))]
    by_cases hgate : (!(((children.filter (fun e => e.isDir)).filter
          (fun e => !(is_dir_readable e))).map Entry.name).isEmpty &&
        (children.filter (fun e => e.isDir)).all
          (fun e => (((children.filter (fun e => e.isDir)).filter
            (fun e => !(is_dir_readable e))).map Entry.name).contains e.name)) = true
    · rw [if_pos hgate]
      constructor
      · simp
      · intro hmem
        simp only [List.mem_singleton] at hmem
        exact absurd hmem (by decide)
    · rw [if_neg hgate]
      by_cases he : (classifierItems true children quick).isEmpty = true
      · simp only [he, if_true]
        constructor
        · simp
        · intro _
          rfl
      · simp only [he, Bool.false_eq_true, if_false]
        constructor
        · intro hnil
          rw [List.map_eq_nil_iff] at hnil
          rw [hnil] at he
          exact he rfl
        · intro hmem
          rcases classifierItems_keys true children quick "unknown" hmem with
            h | h | h | h | h <;> exact absurd h (by decide)

/-- Witness for C8 on the empty run directory, where the terminal fallback
fires. -/
theorem analyze_run_formats_nonempty_witness :
    (analyze_run true [] false).formats ≠ [] ∧
    (analyze_run true [] false).details.lookup "unknown" =
      some (diagnose_unknown true []) :=
  ⟨(analyze_run_formats_nonempty true [] false).1,
   (analyze_run_formats_nonempty true [] false).2 (by decide)⟩

theorem mem_keys_exists {l : List (String × FormatDetail)} {t : String}
    (h : t ∈ l.map Prod.fst) : ∃ d, (t, d) ∈ l := by
  rcases List.mem_map.mp h with ⟨p, hp, rfl⟩
  exact ⟨p.2, by simpa using hp⟩

theorem archive_step_nodup (s : RunStructure) (rootReadable : Bool)
    (children : List Entry) (pre : List (String × FormatDetail))
    (hnodup : (pre.map Prod.fst).Nodup) :
    ((pre ++ ([archiveItem s rootReadable children (pre.map Prod.fst)].filterMap id)).map
      Prod.fst).Nodup := by
  cases h8 : archiveItem s rootReadable children (pre.map Prod.fst) with
  | none => simpa using hnodup
  | some x8 =>
    obtain ⟨ht8, hc8⟩ := archiveItem_tag h8
    simp only [List.filterMap_cons, id_eq, List.filterMap_nil, List.map_append,
      List.map_cons, List.map_nil]
    have hmem : x8.1 ∉ pre.map Prod.fst := by
      rw [ht8]
      intro hc
      have h1 : (pre.map Prod.fst).contains "single_read_fast5" = true :=
        List.elem_eq_true_of_mem hc
      exact absurd (h1.symm.trans hc8) (by decide)
    rw [List.nodup_append]
    exact ⟨hnodup, List.nodup_singleton x8.1,
      by simpa [List.disjoint_singleton] using hmem⟩

theorem classifierItems_keys_nodup (rootReadable : Bool) (children : List Entry)
    (q : Bool) :
    ((classifierItems rootReadable children q).map Prod.fst).Nodup := by
  simp only [classifierItems]
  have hrw : ∀ (o4 o5 o6 o7 o8 : Option (String × FormatDetail)),
      ([o4, o5, o6, o7, o8] : List (Option (String × FormatDetail))) =
        [o4, o5, o6, o7] ++ [o8] := fun _ _ _ _ _ => rfl
  rw [hrw, List.filterMap_append]
  apply archive_step_nodup
  cases h4 : pod5Item q (discover_run_structure rootReadable children) with
  | none =>
    cases h6 : fastqItem q (discover_run_structure rootReadable children) with
    | none =>
      cases h5 : fast5Item q (discover_run_structure rootReadable children) with
      | none =>
        cases h7 : rootFallbackItem q (discover_run_structure rootReadable children)
            rootReadable children with
        | none => simp
        | some x7 => simp
      | some x5 =>
        rw [rootFallbackItem_none (fast5Item_some_not_empty h5)]
        simp
    | some x6 =>
      cases h5 : fast5Item q (discover_run_structure rootReadable children) with
      | none =>
        cases h7 : rootFallbackItem q (discover_run_structure rootReadable children)
            rootReadable children with
        | none => simp
        | some x7 =>
          simp only [List.filterMap_cons, id_eq, List.filterMap_nil, List.map_cons,
            List.map_nil]
          rw [fastqItem_tag h6]
          rcases rootFallbackItem_tag h7 with ht | ht | ht <;> rw [ht] <;> decide
      | some x5 =>
        rw [rootFallbackItem_none (fast5Item_some_not_empty h5)]
        simp only [List.filterMap_cons, id_eq, List.filterMap_nil, List.map_cons,
          List.map_nil]
        rw [fastqItem_tag h6]
        rcases fast5Item_tag h5 with ht | ht | ht <;> rw [ht] <;> decide
  | some x4 =>
    cases h6 : fastqItem q (discover_run_structure rootReadable children) with
    | none =>
      cases h5 : fast5Item q (discover_run_structure rootReadable children) with
      | none =>
        cases h7 : rootFallbackItem q (discover_run_structure rootReadable children)
            rootReadable children with
        | none => simp
        | some x7 =>
          simp only [List.filterMap_cons, id_eq, List.filterMap_nil, List.map_cons,
            List.map_nil]
          rw [pod5Item_tag h4]
          rcases rootFallbackItem_tag h7 with ht | ht | ht <;> rw [ht] <;> decide
      | some x5 =>
        rw [rootFallbackItem_none (fast5Item_some_not_empty h5)]
        simp only [List.filterMap_cons, id_eq, List.filterMap_nil, List.map_cons,
          List.map_nil]
        rw [pod5Item_tag h4]
        rcases fast5Item_tag h5 with ht | ht | ht <;> rw [ht] <;> decide
    | some x6 =>
      cases h5 : fast5Item q (discover_run_structure rootReadable children) with
      | none =>
        cases h7 : rootFallbackItem q (discover_run_structure rootReadable children)
            rootReadable children with
        | none =>
          simp only [List.filterMap_cons, id_eq, List.filterMap_nil, List.map_cons,
            List.map_nil]
          rw [pod5Item_tag h4, fastqItem_tag h6]
          decide
        | some x7 =>
          simp only [List.filterMap_cons, id_eq, List.filterMap_nil, List.map_cons,
            List.map_nil]
          rw [pod5Item_tag h4, fastqItem_tag h6]
          rcases rootFallbackItem_tag h7 with ht | ht | ht <;> rw [ht] <;> decide
      | some x5 =>
        rw [rootFallbackItem_none (fast5Item_some_not_empty h5)]
        simp only [List.filterMap_cons, id_eq, List.filterMap_nil, List.map_cons,
          List.map_nil]
        rw [pod5Item_tag h4, fastqItem_tag h6]
        rcases fast5Item_tag h5 with ht | ht | ht <;> rw [ht] <;> decide

/-- **C10**: for every run directory and either quick-mode setting, the
formats list contains no duplicate tags, and every tag in it has an entry
under the same key in the details mapping. -/
theorem analyze_run_no_duplicate_tags (rootReadable : Bool) (children : List Entry)
    (quick : Bool) :
    (analyze_run rootReadable children quick).formats.Nodup ∧
    ∀ t ∈ (analyze_run rootReadable children quick).formats,
      ∃ d, (t, d) ∈ (analyze_run rootReadable children quick).details := by
  have hfd : (analyze_run rootReadable children quick).formats =
      (analyze_run rootReadable children quick).details.map Prod.fst := by
    simp only [analyze_run]
    split
    · rfl
    · split
      · rfl
      · split
        · rfl
        · rfl
  constructor
  · cases rootReadable with
    | false => simp [analyze_run]
    | true =>
      simp only [analyze_run]
      rw [if_neg (by simp : ¬ ((!true) = true))]
      split
      · simp
      · split
        · simp
        · exact classifierItems_keys_nodup true children quick
  · intro t ht
    rw [hfd] at ht
    exact mem_keys_exists ht

/-- Witness for C10 on the empty run directory with its `unknown` tag. -/
theorem analyze_run_no_duplicate_tags_witness :
    (analyze_run true [] false).formats.Nodup ∧
    ∃ d, ("unknown", d) ∈ (analyze_run true [] false).details :=
  ⟨(analyze_run_no_duplicate_tags true [] false).1,
   (analyze_run_no_duplicate_tags true [] false).2 "unknown" (by decide)⟩

/-! ## C6: the archive fallback -/

/-- **C6**: the archive fallback fires exactly when no directory named
exactly `fast5` was discovered, `single_read_fast5` has not already been
appended, and the run root's immediate entries include an archive file;
when it fires it appends `single_read_fast5` with the assumed-
classification note and the archive filenames, and performs no byte
counting (`data_size_bytes` absent, `file_count` 0).  A `fast5_`-prefixed
directory already tagged `multi_read_fast5` does not suppress it, as the
concrete run in the last conjunct shows. -/
theorem archive_fallback_exactly (s : RunStructure) (rootReadable : Bool)
    (children : List Entry) (fsofar : List String) :
    ((archiveItem s rootReadable children fsofar).isSome = true ↔
      (s.fast5 = [] ∧ fsofar.contains "single_read_fast5" = false ∧
        (if rootReadable then rootArchives children else []) ≠ [])) ∧
    (∀ x, archiveItem s rootReadable children fsofar = some x →
      x.1 = "single_read_fast5" ∧
      x.2.note = some "Compressed archives found — assumed single-read fast5" ∧
      x.2.archive_files = some (if rootReadable then rootArchives children else []) ∧
      x.2.data_size_bytes = none ∧
      x.2.file_count = some 0) ∧
    (analyze_run true [Entry.dir "fast5_pass" true [Entry.file "y.fast5" 2000000],
        Entry.file "run.tar" 100] false).formats =
      ["multi_read_fast5", "single_read_fast5"] := by
  refine ⟨⟨?_, ?_⟩, ?_, ?_⟩
  · intro hsome
    simp only [archiveItem] at hsome
    split at hsome
    · rename_i hcond
      have hc := (Bool.and_eq_true _ _).mp hcond
      refine ⟨List.isEmpty_iff.mp hc.1, by simpa using hc.2, ?_⟩
      intro hnil
      rw [hnil] at hsome
      simp at hsome
    · simp at hsome
  · rintro ⟨h1, h2, h3⟩
    have h2' : "single_read_fast5" ∉ fsofar := by
      intro hm
      exact absurd ((List.elem_eq_true_of_mem hm).symm.trans h2) (by decide)
    have hcond : (s.fast5.isEmpty && !fsofar.contains "single_read_fast5") = true := by
      simp [List.isEmpty_iff.mpr h1, h2']
    have harch : ¬ (((if rootReadable = true then rootArchives children else [] :
        List String)).isEmpty = true) := by
      simpa [List.isEmpty_iff] using h3
    simp only [archiveItem]
    rw [if_pos hcond, if_neg harch]
    simp
  · intro x h
    simp only [archiveItem] at h
    split at h
    · by_cases hr : rootReadable = true
      · rw [if_pos hr] at h ⊢
        split at h
        · exact absurd h (by simp)
        · obtain rfl := (Option.some.inj h).symm
          exact ⟨rfl, rfl, rfl, rfl, rfl⟩
      · rw [if_neg hr] at h ⊢
        simp at h
    · exact absurd h (by simp)
  · decide

/-- The archive detail produced on the witness input for C6. -/
def archiveWitnessDetail : FormatDetail :=
  { directories := some [""],
    file_count := some 0,
    archive_files := some ["a.tar"],
    archive_count := some 1,
    note := some "Compressed archives found — assumed single-read fast5" }

/-- Witness for C6 at a run root holding a single `.tar` file. -/
theorem archive_fallback_exactly_witness :
    archiveItem {} true [Entry.file "a.tar" 1] [] =
      some ("single_read_fast5", archiveWitnessDetail) ∧
    archiveWitnessDetail.note =
      some "Compressed archives found — assumed single-read fast5" ∧
    archiveWitnessDetail.data_size_bytes = none ∧
    archiveWitnessDetail.file_count = some 0 := by
  have heq : archiveItem {} true [Entry.file "a.tar" 1] [] =
      some ("single_read_fast5", archiveWitnessDetail) := by decide
  have h := (archive_fallback_exactly {} true [Entry.file "a.tar" 1] []).2.1
    ("single_read_fast5", archiveWitnessDetail) heq
  exact ⟨heq, h.2.1, h.2.2.2.1, h.2.2.2.2⟩

/-! ## C5: a run holding only a pod5 directory -/

theorem fcfChildren_all_match (exts : List String) (recursive : Bool) :
    ∀ (files : List (String × Nat)),
      (∀ f ∈ files, exts.any (fun e => strEndsWith f.1 e) = true) →
      fcfChildren exts recursive (files.map (fun f => Entry.file f.1 f.2)) =
        (files.length, (files.map Prod.snd).sum) := by
  intro files
  induction files with
  | nil => intro _; simp [fcfChildren]
  | cons f fs ih =>
    intro h
    have h1 := h f (List.mem_cons_self f fs)
    have h2 := ih (fun g hg => h g (List.mem_cons_of_mem f hg))
    simp only [List.map_cons, fcfChildren, h1, if_true, h2, List.length_cons,
      List.sum_cons, Prod.mk.injEq]
    exact ⟨trivial, by omega⟩

theorem pod5Item_fields (s : RunStructure)
    (h : ¬ ((s.pod5 ++ s.pod5_prefixed).isEmpty = true)) :
    ∃ d, pod5Item false s = some ("pod5", d) ∧
      d.file_count = some ((((s.pod5 ++ s.pod5_prefixed).map
        (fun pe => count_files_recursive pe.2.readable pe.2.children ".pod5")).map
          Prod.fst).sum) ∧
      d.data_size_bytes = some ((((s.pod5 ++ s.pod5_prefixed).map
        (fun pe => count_files_recursive pe.2.readable pe.2.children ".pod5")).map
          Prod.snd).sum) := by
  simp only [pod5Item]
  rw [if_neg h]
  simp only [Bool.not_false, reduceIte]
  refine ⟨_, rfl, ?_, ?_⟩ <;>
    (split <;> first | rfl | (split <;> rfl))

/-- When every immediate subdirectory is readable, the all-unreadable
permission gate of `analyze_run` does not fire. -/
theorem analyze_gate_not_fired (children : List Entry)
    (hread : ∀ e ∈ children, e.isDir = true → e.readable = true) :
    (!(((children.filter (fun e => e.isDir)).filter
          (fun e => !(is_dir_readable e))).map Entry.name).isEmpty &&
        (children.filter (fun e => e.isDir)).all
          (fun e => (((children.filter (fun e => e.isDir)).filter
            (fun e => !(is_dir_readable e))).map Entry.name).contains e.name)) = false := by
  have hnil : (children.filter (fun e => e.isDir)).filter
      (fun e => !(is_dir_readable e)) = [] := by
    rw [List.filter_eq_nil]
    intro e he
    have hm := List.mem_filter.mp he
    simp [is_dir_readable, hread e hm.1 hm.2]
  simp [hnil]

/-- **C5**: a run directory whose only content is a subdirectory named
exactly `pod5` holding files all suffixed `.pod5` is classified, in full
(non-quick) mode, as exactly `["pod5"]`, with the pod5 detail reporting
the file count and total byte size of those files. -/
theorem pod5_only_run (files : List (String × Nat))
    (hsuffix : ∀ f ∈ files, strEndsWith f.1 ".pod5" = true) :
    (analyze_run true [Entry.dir "pod5" true
        (files.map (fun f => Entry.file f.1 f.2))] false).formats = ["pod5"] ∧
    ∃ d, (analyze_run true [Entry.dir "pod5" true
        (files.map (fun f => Entry.file f.1 f.2))] false).details = [("pod5", d)] ∧
      d.file_count = some files.length ∧
      d.data_size_bytes = some ((files.map Prod.snd).sum) := by
  have hcount : count_files_recursive true (files.map (fun f => Entry.file f.1 f.2))
      ".pod5" = (files.length, (files.map Prod.snd).sum) := by
    simp only [count_files_recursive, fast_count_files, if_true]
    exact fcfChildren_all_match [".pod5"] true files
      (fun f hf => by simp [hsuffix f hf])
  have hs : discover_run_structure true [Entry.dir "pod5" true
      (files.map (fun f => Entry.file f.1 f.2))] =
      { pod5 := [(["pod5"], Entry.dir "pod5" true
          (files.map (fun f => Entry.file f.1 f.2)))] } := rfl
  obtain ⟨d4, h4, hfc, hds⟩ := pod5Item_fields
    ({ pod5 := [(["pod5"], Entry.dir "pod5" true
        (files.map (fun f => Entry.file f.1 f.2)))] }) (by simp)
  have h5 : fast5Item false ({ pod5 := [(["pod5"], Entry.dir "pod5" true
      (files.map (fun f => Entry.file f.1 f.2)))] } : RunStructure) = none := rfl
  have h6 : fastqItem false ({ pod5 := [(["pod5"], Entry.dir "pod5" true
      (files.map (fun f => Entry.file f.1 f.2)))] } : RunStructure) = none := rfl
  have h7 : rootFallbackItem false ({ pod5 := [(["pod5"], Entry.dir "pod5" true
      (files.map (fun f => Entry.file f.1 f.2)))] } : RunStructure) true
      [Entry.dir "pod5" true (files.map (fun f => Entry.file f.1 f.2))] = none := rfl
  have hitems : classifierItems true [Entry.dir "pod5" true
      (files.map (fun f => Entry.file f.1 f.2))] false = [("pod5", d4)] := by
    simp only [classifierItems]
    rw [hs, h4, h5, h6, h7]
    rfl
  have hgate := analyze_gate_not_fired
    [Entry.dir "pod5" true (files.map (fun f => Entry.file f.1 f.2))]
    (by
      intro e he _
      rw [List.mem_singleton.mp he]
      rfl)
  have hres : analyze_run true [Entry.dir "pod5" true
      (files.map (fun f => Entry.file f.1 f.2))] false =
      { formats := ["pod5"], details := [("pod5", d4)] } := by
    simp only [analyze_run]
    rw [if_neg (by simp : ¬ ((!true) = true)),
      if_neg (by rw [hgate]; exact Bool.false_ne_true), hitems]
    rfl
  refine ⟨by rw [hres], d4, by rw [hres], ?_, ?_⟩
  · rw [hfc]
    simp [Entry.readable, Entry.children, hcount]
  · rw [hds]
    simp [Entry.readable, Entry.children, hcount]

/-- Witness for C5 at two concrete `.pod5` files of sizes 3 and 4. -/
theorem pod5_only_run_witness :
    (analyze_run true [Entry.dir "pod5" true
        [Entry.file "a.pod5" 3, Entry.file "b.pod5" 4]] false).formats = ["pod5"] ∧
    ∃ d, (analyze_run true [Entry.dir "pod5" true
        [Entry.file "a.pod5" 3, Entry.file "b.pod5" 4]] false).details = [("pod5", d)] ∧
      d.file_count = some 2 ∧ d.data_size_bytes = some 7 :=
  pod5_only_run [("a.pod5", 3), ("b.pod5", 4)] (by decide)

/-! ## C9: the diagnostic enumeration cap -/

/-- Tally of a whole entry list: what the `diagnose_unknown` loop computes
when the cap never interferes — every directory entered into the
subdirectory list, every file counted and bucketed by extension. -/
def tallyEntries : List Entry → List String → Nat → List (String × Nat) →
    List String × Nat × List (String × Nat)
  | [], subs, fc, exts => (subs, fc, exts)
  | .dir n _ _ :: rest, subs, fc, exts => tallyEntries rest (subs ++ [n]) fc exts
  | .file n _ :: rest, subs, fc, exts =>
      tallyEntries rest subs (fc + 1) (bumpExt (extOf n) exts)

theorem tallyEntries_count :
    ∀ (es : List Entry) (subs : List String) (fc : Nat) (exts : List (String × Nat)),
      (tallyEntries es subs fc exts).1.length + (tallyEntries es subs fc exts).2.1 =
        subs.length + fc + es.length := by
  intro es
  induction es with
  | nil => intro subs fc exts; simp [tallyEntries]
  | cons e rest ih =>
    intro subs fc exts
    cases e with
    | dir n r cs =>
      simp only [tallyEntries, List.length_cons]
      rw [ih]
      simp only [List.length_append, List.length_cons, List.length_nil]
      omega
    | file n sz =>
      simp only [tallyEntries, List.length_cons]
      rw [ih]
      omega

theorem diagScan_no_trunc :
    ∀ (es : List Entry) (ec : Nat) (subs : List String) (fc : Nat)
      (exts : List (String × Nat)), ec + es.length ≤ 4999 →
      diagScan es ec subs fc exts =
        ((tallyEntries es subs fc exts).1, (tallyEntries es subs fc exts).2.1,
         (tallyEntries es subs fc exts).2.2, false) := by
  intro es
  induction es with
  | nil => intro ec subs fc exts _; simp [diagScan, tallyEntries]
  | cons e rest ih =>
    intro ec subs fc exts hle
    have hle' : ec + rest.length + 1 ≤ 4999 := by
      simp only [List.length_cons] at hle
      omega
    have hlt : ¬ (5000 ≤ ec + 1) := by omega
    cases e with
    | dir n r cs =>
      simp only [diagScan, tallyEntries, hlt, if_false]
      exact ih (ec + 1) _ _ _ (by omega)
    | file n sz =>
      simp only [diagScan, tallyEntries, hlt, if_false]
      exact ih (ec + 1) _ _ _ (by omega)

theorem diagScan_trunc :
    ∀ (es : List Entry) (ec : Nat) (subs : List String) (fc : Nat)
      (exts : List (String × Nat)), ec ≤ 4999 → 5000 ≤ ec + es.length →
      diagScan es ec subs fc exts =
        ((tallyEntries (es.take (4999 - ec)) subs fc exts).1,
         (tallyEntries (es.take (4999 - ec)) subs fc exts).2.1,
         (tallyEntries (es.take (4999 - ec)) subs fc exts).2.2, true) := by
  intro es
  induction es with
  | nil =>
    intro ec subs fc exts hec hcap
    simp only [List.length_nil, Nat.add_zero] at hcap
    omega
  | cons e rest ih =>
    intro ec subs fc exts hec hcap
    have hcap' : 5000 ≤ ec + rest.length + 1 := by
      simp only [List.length_cons] at hcap
      omega
    by_cases hstop : 5000 ≤ ec + 1
    · have h0 : 4999 - ec = 0 := by omega
      cases e with
      | dir n r cs => simp [diagScan, hstop, h0, tallyEntries]
      | file n sz => simp [diagScan, hstop, h0, tallyEntries]
    · obtain ⟨k, hk⟩ : ∃ k, 4999 - ec = k + 1 := ⟨4999 - ec - 1, by omega⟩
      have hk' : 4999 - (ec + 1) = k := by omega
      cases e with
      | dir n r cs =>
        simp only [diagScan, hstop, if_false, hk, List.take_succ_cons, tallyEntries]
        rw [ih (ec + 1) _ _ _ (by omega) (by omega), hk']
      | file n sz =>
        simp only [diagScan, hstop, if_false, hk, List.take_succ_cons, tallyEntries]
        rw [ih (ec + 1) _ _ _ (by omega) (by omega), hk']

/-- The three tally fields of `diagnose_unknown`, given the scan's result
and that the directory was not judged empty. -/
theorem diagnose_unknown_fields (children : List Entry) (subs : List String)
    (fc : Nat) (exts : List (String × Nat)) (tr : Bool)
    (hscan : diagScan children 0 [] 0 [] = (subs, fc, exts, tr))
    (hne : ¬ ((subs.isEmpty && fc = 0) = true)) :
    (diagnose_unknown true children).subdirectory_names = some subs ∧
      (diagnose_unknown true children).file_count = some fc ∧
      (diagnose_unknown true children).file_extensions = some exts := by
  simp only [diagnose_unknown, Bool.not_true, Bool.false_eq_true, if_false, hscan]
  rw [if_neg hne]
  refine ⟨?_, ?_, ?_⟩ <;>
    (split <;> (try split) <;> (try split) <;> rfl)

/-- Whenever the scan reports truncation, the truncation note is among the
returned reasons (in every branch of the reporter). -/
theorem diagnose_unknown_trunc_mem (children : List Entry) (subs : List String)
    (fc : Nat) (exts : List (String × Nat))
    (hscan : diagScan children 0 [] 0 [] = (subs, fc, exts, true)) :
    "Sampling stopped at 5000 entries (directory may contain more)" ∈
      ((diagnose_unknown true children).reasons.getD []) := by
  simp only [diagnose_unknown, Bool.not_true, Bool.false_eq_true, if_false, hscan,
    if_true]
  split <;> (try split) <;> (try split) <;> simp

theorem tallyEntries_replicate_file :
    ∀ (k : Nat) (n : String) (sz : Nat) (subs : List String) (fc : Nat)
      (exts : List (String × Nat)),
      (tallyEntries (List.replicate k (Entry.file n sz)) subs fc exts).1 = subs ∧
      (tallyEntries (List.replicate k (Entry.file n sz)) subs fc exts).2.1 = fc + k := by
  intro k
  induction k with
  | zero => intro n sz subs fc exts; simp [tallyEntries]
  | succ m ih =>
    intro n sz subs fc exts
    simp only [List.replicate_succ, tallyEntries]
    obtain ⟨h1, h2⟩ := ih n sz subs (fc + 1) (bumpExt (extOf n) exts)
    exact ⟨h1, by omega⟩

set_option maxRecDepth 8000 in
/-- **C9** counterexample: a directory with exactly 5,000 immediate
entries is within the claimed cap, yet the 5,000th entry is never tallied:
the reported file count is 4,999, not 5,000. -/
theorem diagnose_unknown_cap_cex :
    (List.replicate 5000 (Entry.file "a.x" 1)).length = 5000 ∧
    (diagnose_unknown true (List.replicate 5000 (Entry.file "a.x" 1))).file_count =
      some 4999 ∧
    (diagnose_unknown true (List.replicate 5000 (Entry.file "a.x" 1))).file_count ≠
      some (List.replicate 5000 (Entry.file "a.x" 1)).length := by
  have hscan := diagScan_trunc (List.replicate 5000 (Entry.file "a.x" 1)) 0 [] 0 []
    (by omega) (by rw [List.length_replicate])
  have hmin : min 4999 5000 = 4999 := by omega
  rw [Nat.sub_zero, List.take_replicate, hmin] at hscan
  obtain ⟨ht1, ht2⟩ := tallyEntries_replicate_file 4999 "a.x" 1 [] 0 []
  have hne : ¬ (((tallyEntries (List.replicate 4999 (Entry.file "a.x" 1)) [] 0 []).1.isEmpty &&
      (tallyEntries (List.replicate 4999 (Entry.file "a.x" 1)) [] 0 []).2.1 = 0) = true) := by
    rw [ht1, ht2]
    decide
  obtain ⟨_, hB, _⟩ := diagnose_unknown_fields (List.replicate 5000 (Entry.file "a.x" 1))
    _ _ _ true hscan hne
  rw [ht2] at hB
  refine ⟨by rw [List.length_replicate], hB, ?_⟩
  rw [hB, List.length_replicate]
  decide

/-- **C9** (amended): `diagnose_unknown` tallies every immediate entry of
the run root when there are at most 4,999 of them; with 5,000 or more the
cap is hit before the 5,000th entry is examined: the returned reasons
include the truncation note and the tallies cover exactly the first 4,999
entries. -/
theorem diagnose_unknown_cap (children : List Entry) :
    (children.length ≤ 4999 → children ≠ [] →
      (diagnose_unknown true children).subdirectory_names =
          some (tallyEntries children [] 0 []).1 ∧
        (diagnose_unknown true children).file_count =
          some (tallyEntries children [] 0 []).2.1 ∧
        (diagnose_unknown true children).file_extensions =
          some (tallyEntries children [] 0 []).2.2) ∧
    (5000 ≤ children.length →
      ("Sampling stopped at 5000 entries (directory may contain more)" ∈
          ((diagnose_unknown true children).reasons.getD []) ∧
        (diagnose_unknown true children).subdirectory_names =
          some (tallyEntries (children.take 4999) [] 0 []).1 ∧
        (diagnose_unknown true children).file_count =
          some (tallyEntries (children.take 4999) [] 0 []).2.1 ∧
        (diagnose_unknown true children).file_extensions =
          some (tallyEntries (children.take 4999) [] 0 []).2.2)) := by
  constructor
  · intro hlen hnil
    have hscan := diagScan_no_trunc children 0 [] 0 [] (by omega)
    refine diagnose_unknown_fields children _ _ _ false hscan ?_
    intro hc
    simp only [Bool.and_eq_true, List.isEmpty_iff, decide_eq_true_eq] at hc
    have hcnt := tallyEntries_count children [] 0 []
    have hpos : 0 < children.length := List.length_pos.mpr hnil
    rw [hc.1] at hcnt
    simp only [List.length_nil] at hcnt
    omega
  · intro hlen
    have hscan := diagScan_trunc children 0 [] 0 [] (by omega) (by omega)
    simp only [Nat.sub_zero] at hscan
    have hne : ¬ (((tallyEntries (children.take 4999) [] 0 []).1.isEmpty &&
        (tallyEntries (children.take 4999) [] 0 []).2.1 = 0) = true) := by
      intro hc
      simp only [Bool.and_eq_true, List.isEmpty_iff, decide_eq_true_eq] at hc
      have hcnt := tallyEntries_count (children.take 4999) [] 0 []
      have htk : (children.take 4999).length = 4999 := by
        rw [List.length_take]
        omega
      rw [hc.1] at hcnt
      simp only [List.length_nil, htk] at hcnt
      omega
    obtain ⟨hA, hB, hC⟩ := diagnose_unknown_fields children _ _ _ true hscan hne
    exact ⟨diagnose_unknown_trunc_mem children _ _ _ hscan, hA, hB, hC⟩

/-- Witness for C9 (amended): a one-file root is fully tallied, and a
5,000-entry root records the truncation note. -/
theorem diagnose_unknown_cap_witness :
    (diagnose_unknown true [Entry.file "a.x" 1]).file_count = some 1 ∧
    "Sampling stopped at 5000 entries (directory may contain more)" ∈
      ((diagnose_unknown true (List.replicate 5000 (Entry.file "a.x" 1))).reasons.getD
        []) := by
  constructor
  · have h := (diagnose_unknown_cap [Entry.file "a.x" 1]).1 (by decide) (by simp)
    rw [h.2.1]
    rfl
  · exact ((diagnose_unknown_cap (List.replicate 5000 (Entry.file "a.x" 1))).2
      (by rw [List.length_replicate])).1

end Nanopore
